import Mathlib

/-!
Verification of the mentor-allotment batch-assignment engine.

This file is a shallow embedding of the Python sources under `src/`:
  - `src/models/student.py`, `src/models/mentor.py`, `src/models/assignment.py`
  - `src/utils/config.py`, `src/utils/validators.py`
  - `src/services/assignment_service.py`

Python objects become Lean structures; in-place mutation becomes explicit
state passing (functions return the updated collections); raising becomes
`Except`.  Timestamp fields (`assignment_date`, `created_date`) are omitted:
they are `datetime.now()` values with no logical content.  Logging calls are
ignored.  The float `students_per_mentor_avg` is modelled as an exact
rational.
-/

namespace Mentors

/-- `models/student.py` `Student` dataclass (sans timestamp concerns). -/
structure Student where
  roll_no : Int
  name : String
  branch : String
  year : Int
  email : Option String := none
  phone : Option String := none
  assigned_mentor_id : Option String := none
deriving DecidableEq

/-- `models/mentor.py` `Mentor` dataclass. -/
structure Mentor where
  faculty_id : String
  name : String
  department : String
  email : Option String := none
  phone : Option String := none
  availability : Bool := true
  max_students : Nat := 30
  assigned_students : List Int := []
deriving DecidableEq

/-- `models/assignment.py` `Assignment` dataclass (`assignment_date` omitted). -/
structure Assignment where
  mentor_id : String
  student_roll_numbers : List Int
  batch_number : Nat
  notes : String
deriving DecidableEq

/-- `models/assignment.py` `AssignmentSummary` (`created_date` omitted;
the float average is modelled as an exact rational). -/
structure AssignmentSummary where
  total_students : Nat
  total_mentors : Nat
  total_assignments : Nat
  students_per_mentor_avg : Rat
  unassigned_students : List Int
  assignments : List Assignment
deriving DecidableEq

/-- `utils/config.py` `Config.BATCH_SIZE` plus `Config.ASSIGNMENT_RULES`,
passed explicitly to the engine (the Python reads a module-global). -/
structure Config where
  batch_size : Nat
  strict_batch_size : Bool
  allow_mentor_overload : Bool
  sort_by_roll_number : Bool
  wrap_around_mentors : Bool
  remainder_threshold : Nat
deriving DecidableEq

/-- The default `Config` values from `utils/config.py`. -/
def defaultConfig : Config :=
  { batch_size := 30
    strict_batch_size := false
    allow_mentor_overload := true
    sort_by_roll_number := true
    wrap_around_mentors := false
    remainder_threshold := 12 }

/-! ## Validators (`utils/validators.py`)

`validate_student` / `validate_mentor` receive Python dicts (built by
`to_dict` or read from CSV).  A dict value that the validators inspect is
either an int or a string; a missing key and a `None` value behave alike
(both fail the truthiness test), so both are modelled as `Option.none`. -/

/-- A Python dict value inspected by the validators: an int or a string. -/
inductive PyVal where
  | vint : Int → PyVal
  | vstr : String → PyVal
deriving DecidableEq

/-- Python truthiness of a dict value (`0` and `""` are falsy). -/
def PyVal.truthy : PyVal → Bool
  | .vint n => n != 0
  | .vstr s => s != ""

/-- Truthiness of an optional dict entry: absent and `None` are falsy. -/
def optTruthy : Option PyVal → Bool
  | none => false
  | some v => v.truthy

/-- Truthiness of an optional string entry. -/
def optStrTruthy : Option String → Bool
  | none => false
  | some s => s != ""

/-- All-digits parse of a character list (the digits of a Python int literal). -/
def parseDigits (l : List Char) : Option Nat :=
  if l.isEmpty then none
  else if l.all Char.isDigit then
    some (l.foldl (fun a c => a * 10 + (c.toNat - 48)) 0)
  else none

/-- Python `str.strip()`: drop leading and trailing whitespace (kept on
character lists so that it evaluates by kernel reduction). -/
def pyStrip (s : String) : String :=
  String.mk (((s.toList.dropWhile Char.isWhitespace).reverse.dropWhile Char.isWhitespace).reverse)

/-- Python `int(s)` on a string: strip whitespace, optional sign, digits. -/
def pyIntOfString (s : String) : Option Int :=
  let l := ((s.toList.dropWhile Char.isWhitespace).reverse.dropWhile Char.isWhitespace).reverse
  match l with
  | '-' :: rest => (parseDigits rest).map (fun n => -(n : Int))
  | '+' :: rest => (parseDigits rest).map (fun n => (n : Int))
  | rest => (parseDigits rest).map (fun n => (n : Int))

/-- Python `int(v)` on a dict value, `none` when a `ValueError`/`TypeError`
would be raised. -/
def pyInt : PyVal → Option Int
  | .vint n => some n
  | .vstr s => pyIntOfString s

/-- `StudentValidator.validate_roll_number`: configured range `[1, 9999]`. -/
def validate_roll_number (n : Int) : Bool :=
  decide (1 ≤ n ∧ n ≤ 9999)

/-- `StudentValidator.validate_year`: membership in the configured `[1,2,3,4]`. -/
def validate_year (y : Int) : Bool :=
  decide (y = 1 ∨ y = 2 ∨ y = 3 ∨ y = 4)

/-- Character class `[a-zA-Z0-9._%+-]` of the local part of the email regex. -/
def isLocalChar (c : Char) : Bool :=
  c.isAlpha || c.isDigit || c = '.' || c = '_' || c = '%' || c = '+' || c = '-'

/-- Character class `[a-zA-Z0-9.-]` of the domain part of the email regex. -/
def isDomainChar (c : Char) : Bool :=
  c.isAlpha || c.isDigit || c = '.' || c = '-'

/-- Split a list at the first occurrence of `ch`, returning the parts before
and after it; `none` when `ch` does not occur. -/
def splitFirst (ch : Char) : List Char → Option (List Char × List Char)
  | [] => none
  | c :: rest =>
    if c = ch then some ([], rest)
    else
      match splitFirst ch rest with
      | none => none
      | some (a, b) => some (c :: a, b)

/-- `StudentValidator.validate_email`: the anchored regex
`[a-zA-Z0-9._%+-]+@[a-zA-Z0-9.-]+\.[a-zA-Z]\x7b2,\x7d`.  The classes exclude
`@`, so the regex `@` is the first `@` of the string; the trailing class
excludes `.`, so the regex `\.` is the last dot after it. -/
def validate_email (email : String) : Bool :=
  if email = "" then true
  else
    match splitFirst '@' email.toList with
    | none => false
    | some (localPart, domain) =>
      match splitFirst '.' domain.reverse with
      | none => false
      | some (tldRev, domRev) =>
        let tld := tldRev.reverse
        let dom := domRev.reverse
        !localPart.isEmpty && localPart.all isLocalChar &&
          !dom.isEmpty && dom.all isDomainChar &&
          decide (2 ≤ tld.length) && tld.all Char.isAlpha

/-- `StudentValidator.validate_phone`: the count of digit characters must lie
in `[10, 15]` (empty phone is accepted as optional). -/
def validate_phone (phone : String) : Bool :=
  if phone = "" then true
  else
    let digits := phone.toList.filter Char.isDigit
    decide (10 ≤ digits.length ∧ digits.length ≤ 15)

/-- A student dict as inspected by `StudentValidator.validate_student`. -/
structure StudentData where
  roll_no : Option PyVal := none
  name : Option String := none
  branch : Option String := none
  year : Option PyVal := none
  email : Option String := none
  phone : Option String := none
deriving DecidableEq

/-- The missing-required-field errors of `validate_student`, in the order of
`required_student_fields = [roll_no, name, branch, year]`. -/
def requiredStudentErrors (d : StudentData) : List String :=
  (if optTruthy d.roll_no then [] else ["Missing required field: roll_no"]) ++
  (if optStrTruthy d.name then [] else ["Missing required field: name"]) ++
  (if optStrTruthy d.branch then [] else ["Missing required field: branch"]) ++
  (if optTruthy d.year then [] else ["Missing required field: year"])

/-- The roll-number errors of `validate_student`'s second stage. -/
def rollNumberErrors (d : StudentData) : List String :=
  match d.roll_no with
  | none => ["Roll number must be a valid integer"]
  | some v =>
    match pyInt v with
    | some n =>
      if validate_roll_number n then []
      else ["Roll number " ++ toString n ++ " is out of valid range"]
    | none => ["Roll number must be a valid integer"]

/-- The year errors of `validate_student`'s second stage. -/
def yearErrors (d : StudentData) : List String :=
  match d.year with
  | none => ["Year must be a valid integer"]
  | some v =>
    match pyInt v with
    | some y => if validate_year y then [] else ["Year " ++ toString y ++ " is not valid"]
    | none => ["Year must be a valid integer"]

/-- The blank-name error of `validate_student`'s second stage. -/
def nameErrors (d : StudentData) : List String :=
  match d.name with
  | some s => if pyStrip s = "" then ["Student name cannot be empty"] else []
  | none => ["Student name cannot be empty"]

/-- The email error of `validate_student`'s second stage. -/
def emailErrors (d : StudentData) : List String :=
  match d.email with
  | some e => if e ≠ "" ∧ validate_email e = false then ["Invalid email format"] else []
  | none => []

/-- The phone error of `validate_student`'s second stage. -/
def phoneErrors (d : StudentData) : List String :=
  match d.phone with
  | some p => if p ≠ "" ∧ validate_phone p = false then ["Invalid phone number format"] else []
  | none => []

/-- `StudentValidator.validate_student`: if any required field is missing the
function returns those errors at once; otherwise it accumulates the
value-level violations. -/
def validate_student (d : StudentData) : Bool × List String :=
  let req := requiredStudentErrors d
  if req.isEmpty then
    let errs := rollNumberErrors d ++ yearErrors d ++ nameErrors d ++ emailErrors d ++ phoneErrors d
    (errs.isEmpty, errs)
  else (false, req)

/-- A mentor dict as inspected by `MentorValidator.validate_mentor`. -/
structure MentorData where
  faculty_id : Option String := none
  name : Option String := none
  department : Option String := none
  email : Option String := none
  phone : Option String := none
  max_students : Option PyVal := none
deriving DecidableEq

/-- `MentorValidator.validate_faculty_id`: `bool(fid and fid.strip())`. -/
def validate_faculty_id (fid : String) : Bool :=
  fid != "" && pyStrip fid != ""

/-- The missing-required-field errors of `validate_mentor`, in the order of
`required_mentor_fields = [faculty_id, name, department]`. -/
def requiredMentorErrors (d : MentorData) : List String :=
  (if optStrTruthy d.faculty_id then [] else ["Missing required field: faculty_id"]) ++
  (if optStrTruthy d.name then [] else ["Missing required field: name"]) ++
  (if optStrTruthy d.department then [] else ["Missing required field: department"])

/-- `MentorValidator.validate_mentor`. -/
def validate_mentor (d : MentorData) : Bool × List String :=
  let req := requiredMentorErrors d
  if req.isEmpty then
    let fidErrs :=
      match d.faculty_id with
      | some f => if validate_faculty_id f then [] else ["Faculty ID cannot be empty"]
      | none => ["Faculty ID cannot be empty"]
    let nmErrs :=
      match d.name with
      | some s => if pyStrip s = "" then ["Mentor name cannot be empty"] else []
      | none => ["Mentor name cannot be empty"]
    let depErrs :=
      match d.department with
      | some s => if pyStrip s = "" then ["Department cannot be empty"] else []
      | none => ["Department cannot be empty"]
    let emErrs :=
      match d.email with
      | some e => if e ≠ "" ∧ validate_email e = false then ["Invalid email format"] else []
      | none => []
    let phErrs :=
      match d.phone with
      | some p => if p ≠ "" ∧ validate_phone p = false then ["Invalid phone number format"] else []
      | none => []
    let maxErrs :=
      match d.max_students with
      | some v =>
        match pyInt v with
        | some n => if n ≤ 0 then ["Max students must be positive"] else []
        | none => ["Max students must be a valid integer"]
      | none => []
    let errs := fidErrs ++ nmErrs ++ depErrs ++ emErrs ++ phErrs ++ maxErrs
    (errs.isEmpty, errs)
  else (false, req)

/-- `Student.to_dict` restricted to the fields the validator inspects. -/
def studentToDict (s : Student) : StudentData :=
  { roll_no := some (.vint s.roll_no)
    name := some s.name
    branch := some s.branch
    year := some (.vint s.year)
    email := s.email
    phone := s.phone }

/-- `Mentor.to_dict` restricted to the fields the validator inspects. -/
def mentorToDict (m : Mentor) : MentorData :=
  { faculty_id := some m.faculty_id
    name := some m.name
    department := some m.department
    email := m.email
    phone := m.phone
    max_students := some (.vint (m.max_students : Int)) }

/-- The empty-collection pre-check of `validate_assignment_feasibility`. -/
def emptinessIssues (students : List Student) (mentors : List Mentor) : List String :=
  (if students.isEmpty then ["No students to assign"] else []) ++
  (if mentors.isEmpty then ["No mentors available"] else [])

/-- The duplicate-roll-number check (`len(rolls) != len(set(rolls))`). -/
def duplicateRollIssues (students : List Student) : List String :=
  if (students.map (fun s => s.roll_no)).length =
      (students.map (fun s => s.roll_no)).dedup.length then []
  else ["Duplicate roll numbers found in student list"]

/-- The duplicate-faculty-id check. -/
def duplicateFacultyIssues (mentors : List Mentor) : List String :=
  if (mentors.map (fun m => m.faculty_id)).length =
      (mentors.map (fun m => m.faculty_id)).dedup.length then []
  else ["Duplicate faculty IDs found in mentor list"]

/-- Total capacity of the available mentors. -/
def totalCapacity (mentors : List Mentor) : Nat :=
  ((mentors.filter (fun m => m.availability)).map (fun m => m.max_students)).sum

/-- The capacity shortfall message shared by the error and the warning. -/
def capacityMsg (students : List Student) (mentors : List Mentor) : String :=
  "Students: " ++ toString students.length ++ ", Capacity: " ++ toString (totalCapacity mentors)

/-- The capacity check as a hard error (overload disallowed). -/
def capacityErrorIssues (cfg : Config) (students : List Student)
    (mentors : List Mentor) : List String :=
  if totalCapacity mentors < students.length ∧ cfg.allow_mentor_overload = false then
    ["Not enough mentor capacity. " ++ capacityMsg students mentors]
  else []

/-- The capacity check as a warning (overload allowed). -/
def capacityWarningIssues (cfg : Config) (students : List Student)
    (mentors : List Mentor) : List String :=
  if totalCapacity mentors < students.length ∧ cfg.allow_mentor_overload = true then
    ["Some mentors will exceed normal capacity. " ++ capacityMsg students mentors]
  else []

/-- `ceil(students / batch_size)` as computed by the Python. -/
def batchesNeeded (cfg : Config) (students : List Student) : Nat :=
  (students.length + cfg.batch_size - 1) / cfg.batch_size

/-- The enough-mentors-for-the-batches check. -/
def batchCountIssues (cfg : Config) (students : List Student)
    (mentors : List Mentor) : List String :=
  if (mentors.filter (fun m => m.availability)).length < batchesNeeded cfg students ∧
      cfg.wrap_around_mentors = false then
    ["Not enough mentors for batch assignment. Need: " ++ toString (batchesNeeded cfg students) ++
      ", Available: " ++ toString (mentors.filter (fun m => m.availability)).length]
  else []

/-- The `errors` list of `validate_assignment_feasibility` (warnings excluded). -/
def feasibilityErrors (cfg : Config) (students : List Student)
    (mentors : List Mentor) : List String :=
  duplicateRollIssues students ++ duplicateFacultyIssues mentors ++
    capacityErrorIssues cfg students mentors ++ batchCountIssues cfg students mentors

/-- `AssignmentValidator.validate_assignment_feasibility`: the returned flag is
`errors.isEmpty`; the returned list is `errors ++ warnings`, so a capacity
warning appears in the list without flipping the flag. -/
def validate_assignment_feasibility (cfg : Config) (students : List Student)
    (mentors : List Mentor) : Bool × List String :=
  if (emptinessIssues students mentors).isEmpty then
    ((feasibilityErrors cfg students mentors).isEmpty,
      feasibilityErrors cfg students mentors ++ capacityWarningIssues cfg students mentors)
  else (false, emptinessIssues students mentors)

/-- `validate_data_consistency`: per-record issues plus the feasibility
issues; note the returned flag is `all_issues.isEmpty`, which counts
feasibility *warnings* as blocking (the Python discards `is_feasible`). -/
def validate_data_consistency (cfg : Config) (students : List Student)
    (mentors : List Mentor) : Bool × List String :=
  let sIssues := (students.map (fun s =>
    ((validate_student (studentToDict s)).2).map
      (fun e => "Student " ++ toString s.roll_no ++ ": " ++ e))).flatten
  let mIssues := (mentors.map (fun m =>
    ((validate_mentor (mentorToDict m)).2).map
      (fun e => "Mentor " ++ m.faculty_id ++ ": " ++ e))).flatten
  let feas := (validate_assignment_feasibility cfg students mentors).2
  let allIssues := sIssues ++ mIssues ++ feas
  (allIssues.isEmpty, allIssues)

/-! ## Assignment engine (`services/assignment_service.py`)

The engine mutates the available mentors, the student objects, and grows the
assignment and unassigned lists; this state is carried explicitly. -/

/-- The loop state of `assign_students_to_mentors`: the (reset) available
mentors, the mentor cursor, the created assignments, the students placed on
the unassigned list, and the students processed so far (with their
`assigned_mentor_id` mutations applied). -/
structure BatchState where
  mentors : List Mentor
  cursor : Nat
  assignments : List Assignment
  unassigned : List Student
  processed : List Student
deriving DecidableEq

/-- The note string attached to a fresh complete-batch assignment. -/
def batchNote (k : Nat) : String :=
  "Batch assignment with " ++ toString k ++ " students"

/-- The note string written when remainder students are folded in. -/
def foldNote (total r : Nat) : String :=
  "Batch assignment with " ++ toString total ++ " students (includes " ++
    toString r ++ " remainder students)"

/-- The note string attached to a remainder assignment of its own. -/
def remainderNote (r : Nat) : String :=
  "Remainder batch assignment with " ++ toString r ++ " students"

/-- Assign one whole batch to the mentor at index `i`: create the
`Assignment`, extend the mentor's `assigned_students`, set each batch
student's `assigned_mentor_id`, and advance the cursor past `i`. -/
def assignBatch (st : BatchState) (i : Nat) (bn : Nat) (batch : List Student) : BatchState :=
  match st.mentors[i]? with
  | none => st
  | some mentor =>
    let rolls := batch.map (fun s => s.roll_no)
    let asg : Assignment :=
      { mentor_id := mentor.faculty_id
        student_roll_numbers := rolls
        batch_number := bn
        notes := batchNote batch.length }
    { st with
      mentors := st.mentors.set i
        { mentor with assigned_students := mentor.assigned_students ++ rolls }
      cursor := i + 1
      assignments := st.assignments ++ [asg]
      processed := st.processed ++
        batch.map (fun s => { s with assigned_mentor_id := some mentor.faculty_id }) }

/-- One iteration of the complete-batch loop: on an exhausted cursor either
wrap to mentor 0 (policy on) or ship the batch to the unassigned list without
advancing the cursor (policy off); otherwise assign to the mentor at the
cursor. -/
def processOneBatch (cfg : Config) (st : BatchState) (bn : Nat) (batch : List Student) :
    BatchState :=
  if st.mentors.length ≤ st.cursor then
    if cfg.wrap_around_mentors then assignBatch st 0 bn batch
    else { st with unassigned := st.unassigned ++ batch, processed := st.processed ++ batch }
  else assignBatch st st.cursor bn batch

/-- The complete-batch loop, `bn` being the 1-based number of the next batch. -/
def processBatches (cfg : Config) (st : BatchState) (bn : Nat) :
    List (List Student) → BatchState
  | [] => st
  | b :: rest => processBatches cfg (processOneBatch cfg st bn b) (bn + 1) rest

/-- The `complete_batches` slices `students[b*B : (b+1)*B]` of the batch loop. -/
def completeChunks (B : Nat) (k : Nat) (l : List Student) : List (List Student) :=
  (List.range k).map (fun b => (l.drop (b * B)).take B)

/-- Extend the `assigned_students` of the first mentor whose `faculty_id` is
`fid` (the `next(m for m in available_mentors ...)` mutation of the fold). -/
def extendMentorAssigned (fid : String) (rolls : List Int) : List Mentor → List Mentor
  | [] => []
  | m :: rest =>
    if m.faculty_id = fid then
      { m with assigned_students := m.assigned_students ++ rolls } :: rest
    else m :: extendMentorAssigned fid rolls rest

/-- The remainder step of `assign_students_to_mentors` (only entered when the
remainder is non-empty).  At or below the threshold the remainder is folded
into the last created assignment unless that would overload its mentor while
overloading is disallowed, or no assignment exists; above the threshold it
becomes a new assignment for the mentor at the cursor, if one remains. -/
def handleRemainder (cfg : Config) (completeBatches : Nat) (rem : List Student)
    (st : BatchState) : BatchState :=
  if rem.length ≤ cfg.remainder_threshold then
    match st.assignments.getLast? with
    | some last =>
      match st.mentors.find? (fun m => m.faculty_id = last.mentor_id) with
      | some mentor =>
        if mentor.max_students < last.student_roll_numbers.length + rem.length ∧
            cfg.allow_mentor_overload = false then
          { st with unassigned := st.unassigned ++ rem, processed := st.processed ++ rem }
        else
          let rolls := rem.map (fun s => s.roll_no)
          let newLast :=
            { last with
              student_roll_numbers := last.student_roll_numbers ++ rolls
              notes := foldNote (last.student_roll_numbers.length + rem.length) rem.length }
          { st with
            assignments := st.assignments.dropLast ++ [newLast]
            mentors := extendMentorAssigned last.mentor_id rolls st.mentors
            processed := st.processed ++
              rem.map (fun s => { s with assigned_mentor_id := some mentor.faculty_id }) }
      | none =>
        { st with unassigned := st.unassigned ++ rem, processed := st.processed ++ rem }
    | none =>
      { st with unassigned := st.unassigned ++ rem, processed := st.processed ++ rem }
  else
    match st.mentors[st.cursor]? with
    | some mentor =>
      let rolls := rem.map (fun s => s.roll_no)
      let asg : Assignment :=
        { mentor_id := mentor.faculty_id
          student_roll_numbers := rolls
          batch_number := completeBatches + 1
          notes := remainderNote rem.length }
      { st with
        mentors := st.mentors.set st.cursor
          { mentor with assigned_students := mentor.assigned_students ++ rolls }
        assignments := st.assignments ++ [asg]
        processed := st.processed ++
          rem.map (fun s => { s with assigned_mentor_id := some mentor.faculty_id }) }
    | none =>
      { st with unassigned := st.unassigned ++ rem, processed := st.processed ++ rem }

/-- Write the mutated available mentors back over the full mentor list: the
Python mutates the shared objects in place, so the `i`-th available mentor of
the input list becomes the `i`-th element of the processed list while
unavailable mentors are untouched. -/
def mergeMentors : List Mentor → List Mentor → List Mentor
  | [], _ => []
  | m :: rest, upd =>
    if m.availability then
      match upd with
      | u :: us => u :: mergeMentors rest us
      | [] => m :: mergeMentors rest []
    else m :: mergeMentors rest upd

/-- `AssignmentService._create_assignment_summary`. -/
def create_assignment_summary (students : List Student) (mentors : List Mentor)
    (assignments : List Assignment) (unassigned : List Student) : AssignmentSummary :=
  { total_students := students.length
    total_mentors := mentors.length
    total_assignments := assignments.length
    students_per_mentor_avg :=
      if assignments.isEmpty then 0
      else mkRat ((assignments.map (fun a => a.student_roll_numbers.length)).sum : Nat)
        assignments.length
    unassigned_students := unassigned.map (fun s => s.roll_no)
    assignments := assignments }

/-- The ordering used by `sorted(students, key=lambda s: s.roll_no)`. -/
def rollLe (a b : Student) : Prop := a.roll_no ≤ b.roll_no

instance : DecidableRel rollLe := fun a b => Int.decLe a.roll_no b.roll_no

/-- The student order used by the engine: ascending roll number when the
`sort_by_roll_number` policy is set. -/
def sortedStudents (cfg : Config) (students : List Student) : List Student :=
  if cfg.sort_by_roll_number then List.insertionSort rollLe students else students

/-- The reset loop of `assign_students_to_mentors`: the available mentors
with their `assigned_students` emptied. -/
def resetAvailable (mentors : List Mentor) : List Mentor :=
  (mentors.filter (fun m => m.availability)).map
    (fun m => { m with assigned_students := ([] : List Int) })

/-- The loop state at entry: reset available mentors, cursor 0, nothing yet
assigned or processed. -/
def initialState (mentors : List Mentor) : BatchState :=
  { mentors := resetAvailable mentors, cursor := 0, assignments := [], unassigned := [],
    processed := [] }

/-- The state after the complete-batch loop of a validated run. -/
def batchPhase (cfg : Config) (students1 : List Student) (mentors : List Mentor) : BatchState :=
  processBatches cfg (initialState mentors) 1
    (completeChunks cfg.batch_size (students1.length / cfg.batch_size) students1)

/-- The final loop state of a validated run: complete batches processed, then
the remainder step when the remainder is non-empty. -/
def finalState (cfg : Config) (students1 : List Student) (mentors : List Mentor) : BatchState :=
  if 0 < students1.length % cfg.batch_size then
    handleRemainder cfg (students1.length / cfg.batch_size)
      (students1.drop (students1.length / cfg.batch_size * cfg.batch_size))
      (batchPhase cfg students1 mentors)
  else batchPhase cfg students1 mentors

/-- The success path of `assign_students_to_mentors` on the (sorted) student
list: the summary, the mutated students, and the mutated full mentor list. -/
def runAssignment (cfg : Config) (students1 : List Student) (mentors : List Mentor) :
    AssignmentSummary × List Student × List Mentor :=
  (create_assignment_summary students1 mentors (finalState cfg students1 mentors).assignments
      (finalState cfg students1 mentors).unassigned,
    (finalState cfg students1 mentors).processed,
    mergeMentors mentors (finalState cfg students1 mentors).mentors)

/-- `AssignmentService.assign_students_to_mentors`.  Returns the summary, the
(sorted) student list with its `assigned_mentor_id` mutations, and the full
mentor list with the available mentors' mutations; a `ValueError` becomes
`Except.error`. -/
def assign_students_to_mentors (cfg : Config) (students : List Student)
    (mentors : List Mentor) :
    Except String (AssignmentSummary × List Student × List Mentor) :=
  if (validate_data_consistency cfg students mentors).1 = false then
    .error ("Data validation failed: " ++
      String.intercalate "; " (validate_data_consistency cfg students mentors).2)
  else
    if (mentors.filter (fun m => m.availability)).isEmpty then
      .error "No available mentors found"
    else .ok (runAssignment cfg (sortedStudents cfg students) mentors)

/-! ## Incremental add (`AssignmentService.add_new_students`)

A raised exception propagates the collections as the caller would observe
them after the `raise`: the error value carries the message together with the
existing students, the new students (with any mutations applied up to the
raise), and the mentor list at that point. -/

/-- `Mentor.get_available_slots` (`max(0, ...)` is Nat subtraction). -/
def get_available_slots (m : Mentor) : Nat :=
  m.max_students - m.assigned_students.length

/-- `Mentor.can_accept_students` with the default `count=1`. -/
def can_accept_students (m : Mentor) : Bool :=
  m.availability && decide (m.assigned_students.length + 1 ≤ m.max_students)

/-- `Mentor.assign_student`: raises when the mentor cannot accept another
student, otherwise appends the roll number if it is not already present. -/
def assign_student (m : Mentor) (roll : Int) : Except String Mentor :=
  if can_accept_students m then
    .ok { m with
      assigned_students :=
        if roll ∈ m.assigned_students then m.assigned_students
        else m.assigned_students ++ [roll] }
  else .error ("Mentor " ++ m.faculty_id ++ " cannot accept more students")

/-- Assign every student of the list to the mentor at index `i`, setting
`assigned_mentor_id` before the (possibly raising) `assign_student` call, as
the Python does.  On success: updated mentors and the mutated students.  On
error: the message, the mentors at the raise, and the students with the
mutations applied so far. -/
def assignListToMentor (mentors : List Mentor) (i : Nat) :
    List Student → Except (String × List Mentor × List Student) (List Mentor × List Student)
  | [] => .ok (mentors, [])
  | s :: rest =>
    match mentors[i]? with
    | none => .error ("mentor index out of range", mentors, s :: rest)
    | some m =>
      let s1 := { s with assigned_mentor_id := some m.faculty_id }
      match assign_student m s.roll_no with
      | .error msg => .error (msg, mentors, s1 :: rest)
      | .ok m1 =>
        match assignListToMentor (mentors.set i m1) i rest with
        | .error (msg, ms, ss) => .error (msg, ms, s1 :: ss)
        | .ok (ms, ss) => .ok (ms, s1 :: ss)

/-- The candidate list of `add_new_students`: indices of mentors with
`availability` and a positive number of free slots, paired with that (captured)
slot count. -/
def candidateIdxs (mentors : List Mentor) : List (Nat × Nat) :=
  (List.range mentors.length).filterMap (fun i =>
    match mentors[i]? with
    | some m =>
      if m.availability = true ∧ 0 < get_available_slots m then
        some (i, get_available_slots m)
      else none
    | none => none)

/-- The ordering used to sort candidates ascending by captured free slots. -/
def slotLe (a b : Nat × Nat) : Prop := a.2 ≤ b.2

instance : DecidableRel slotLe := fun a b => Nat.decLe a.2 b.2

/-- The greedy pass of `add_new_students`: for each candidate mentor take
`min(slots, remaining)` students off the front of the unassigned queue. -/
def greedyAssign : List (Nat × Nat) → List Mentor → List Student → List Student →
    Except (String × List Mentor × List Student × List Student)
      (List Mentor × List Student × List Student)
  | [], ms, acc, un => .ok (ms, acc, un)
  | (i, slots) :: rest, ms, acc, un =>
    if un.isEmpty then .ok (ms, acc, un)
    else
      let can := min slots un.length
      match assignListToMentor ms i (un.take can) with
      | .error (msg, ms1, ss) => .error (msg, ms1, acc ++ ss, un.drop can)
      | .ok (ms1, ss) => greedyAssign rest ms1 (acc ++ ss) (un.drop can)

/-- `AssignmentService._extract_current_assignments`. -/
def extract_current_assignments (mentors : List Mentor) : List Assignment :=
  (List.range mentors.length).filterMap (fun i =>
    match mentors[i]? with
    | some m =>
      if m.assigned_students.isEmpty then none
      else
        some
          { mentor_id := m.faculty_id
            student_roll_numbers := m.assigned_students
            batch_number := i + 1
            notes := "Current assignment with " ++
              toString m.assigned_students.length ++ " students" }
    | none => none)

/-- The first new student whose roll number collides with an existing one. -/
def firstCollision (existing : List Student) : List Student → Option Int
  | [] => none
  | s :: rest =>
    if existing.any (fun e => e.roll_no = s.roll_no) then some s.roll_no
    else firstCollision existing rest

/-- `AssignmentService.add_new_students`.  On success: the summary, the
combined student list `existing ++ assigned ++ unassigned`, and the mutated
mentors.  On a raise: the message with the collections as mutated so far (the
existing students are never touched by this method). -/
def add_new_students (cfg : Config) (existing new_students : List Student)
    (mentors : List Mentor) :
    Except (String × List Student × List Student × List Mentor)
      (AssignmentSummary × List Student × List Mentor) :=
  match firstCollision existing new_students with
  | some r =>
    .error ("Student with roll number " ++ toString r ++ " already exists",
      existing, new_students, mentors)
  | none =>
    let newSorted :=
      if cfg.sort_by_roll_number then List.insertionSort rollLe new_students else new_students
    let cands := List.insertionSort slotLe (candidateIdxs mentors)
    match greedyAssign cands mentors [] newSorted with
    | .error (msg, ms, accSs, unLeft) => .error (msg, existing, accSs ++ unLeft, ms)
    | .ok (ms, acc, un) =>
      if un.isEmpty = false ∧ cfg.allow_mentor_overload = true then
        match ms.findIdx? (fun m => m.availability) with
        | some i =>
          match assignListToMentor ms i un with
          | .error (msg, ms1, ss) => .error (msg, existing, acc ++ ss, ms1)
          | .ok (ms1, ss) =>
            let allStudents := existing ++ (acc ++ ss) ++ []
            let assignments := extract_current_assignments ms1
            .ok (create_assignment_summary allStudents ms1 assignments [], allStudents, ms1)
        | none =>
          let allStudents := existing ++ acc ++ un
          let assignments := extract_current_assignments ms
          .ok (create_assignment_summary allStudents ms assignments un, allStudents, ms)
      else
        let allStudents := existing ++ acc ++ un
        let assignments := extract_current_assignments ms
        .ok (create_assignment_summary allStudents ms assignments un, allStudents, ms)

instance {ε α : Type} [DecidableEq ε] [DecidableEq α] : DecidableEq (Except ε α) := fun a b =>
  match a, b with
  | .error e, .error f =>
    if h : e = f then isTrue (by rw [h]) else isFalse (fun hc => h (Except.error.injEq .. ▸ hc))
  | .error _, .ok _ => isFalse (fun hc => Except.noConfusion hc)
  | .ok _, .error _ => isFalse (fun hc => Except.noConfusion hc)
  | .ok x, .ok y =>
    if h : x = y then isTrue (by rw [h]) else isFalse (fun hc => h (Except.ok.injEq .. ▸ hc))

/-! ## Concrete scenario inputs -/

/-- A minimal valid student record with the given roll number. -/
def demoStudent (r : Int) : Student :=
  { roll_no := r, name := "S", branch := "CSE", year := 1 }

/-- The students with roll numbers `1..n`, already in ascending order. -/
def demoStudents (n : Nat) : List Student :=
  (List.range n).map (fun i => demoStudent ((i : Int) + 1))

/-- A minimal valid available mentor with the given id and capacity. -/
def demoMentor (fid : String) (mx : Nat) : Mentor :=
  { faculty_id := fid, name := "Dr", department := "CS", max_students := mx }

/-- The default configuration with a batch size of two (small demo runs). -/
def smallBatchConfig : Config := { defaultConfig with batch_size := 2 }

/-- Batch size two with overloading and wrap-around disabled. -/
def tinyNoOverload : Config :=
  { defaultConfig with batch_size := 2, allow_mentor_overload := false }

/-- The default configuration with mentor overloading disallowed. -/
def cfgNoOverload : Config := { defaultConfig with allow_mentor_overload := false }

/-- The default configuration with mentor wrap-around enabled. -/
def cfgWrap : Config := { defaultConfig with wrap_around_mentors := true }

/-- Projection of a run result onto (assignment count, per-assignment data,
unassigned roll numbers): keeps concrete statements readable. -/
def runShape (r : Except String (AssignmentSummary × List Student × List Mentor)) :
    Option (Nat × List (String × Nat × Nat) × List Int) :=
  match r with
  | .ok (s, _, _) =>
    some (s.total_assignments,
      s.assignments.map (fun a => (a.mentor_id, a.student_roll_numbers.length, a.batch_number)),
      s.unassigned_students)
  | .error _ => none

/-- Projection of a run result onto the mutated student list. -/
def runStudents (r : Except String (AssignmentSummary × List Student × List Mentor)) :
    Option (List Student) :=
  match r with
  | .ok (_, sts, _) => some sts
  | .error _ => none

/-- Projection of a run result onto the mutated mentor list. -/
def runMentors (r : Except String (AssignmentSummary × List Student × List Mentor)) :
    Option (List Mentor) :=
  match r with
  | .ok (_, _, mts) => some mts
  | .error _ => none

/-- Projection of a run result onto the second assignment's roll list and note. -/
def runSecondAssignment (r : Except String (AssignmentSummary × List Student × List Mentor)) :
    Option (List Int × String) :=
  match r with
  | .ok (s, _, _) =>
    match s.assignments[1]? with
    | some a => some (a.student_roll_numbers, a.notes)
    | none => none
  | .error _ => none

/-- The roll numbers of a student list. -/
def rollsOf (l : List Student) : List Int := l.map (fun s => s.roll_no)

/-- Every roll number accounted for by a loop state: those inside created
assignments plus those on the unassigned list. -/
def footprint (st : BatchState) : List Int :=
  (st.assignments.map (fun a => a.student_roll_numbers)).flatten ++ rollsOf st.unassigned

/-- The fields of a mentor that the engine never changes: id, availability,
capacity. -/
def mentorShape (m : Mentor) : String × Bool × Nat :=
  (m.faculty_id, m.availability, m.max_students)

/-- The cross-structure consistency invariant of the batch loop: `pending`
lists the roll numbers of the students still to be processed.  It ties every
created assignment to exactly the available mentors and students that the
loop has mutated. -/
def StateInv (st : BatchState) (pending : List Int) : Prop :=
  (st.mentors.map (fun m => m.faculty_id)).Nodup ∧
  (∀ m ∈ st.mentors, m.availability = true) ∧
  (rollsOf st.processed ++ pending).Nodup ∧
  (∀ a ∈ st.assignments, ∀ r ∈ a.student_roll_numbers, r ∈ rollsOf st.processed) ∧
  (∀ s ∈ st.unassigned, s.roll_no ∈ rollsOf st.processed) ∧
  (∀ s ∈ st.processed, ∀ a ∈ st.assignments, s.roll_no ∈ a.student_roll_numbers →
    s.assigned_mentor_id = some a.mentor_id) ∧
  (∀ a ∈ st.assignments, ∃ (i : Nat) (m : Mentor), st.mentors[i]? = some m ∧
    m.faculty_id = a.mentor_id ∧
    ∀ r ∈ a.student_roll_numbers, r ∈ m.assigned_students) ∧
  (∀ s ∈ st.unassigned, ∀ a ∈ st.assignments, s.roll_no ∉ a.student_roll_numbers)

/-- The capacity invariant of the batch loop when wrap-around is disabled:
the cursor equals the number of created assignments, the `j`-th assignment
(of size at most the batch size) belongs to the `j`-th mentor whose
`assigned_students` equals exactly its roll list, and every mentor past the
cursor still has an empty `assigned_students`. -/
def CapInv (B : Nat) (st : BatchState) : Prop :=
  st.cursor = st.assignments.length ∧
  (∀ (j : Nat) (a : Assignment), st.assignments[j]? = some a →
    a.student_roll_numbers.length ≤ B ∧
    ∃ m : Mentor, st.mentors[j]? = some m ∧ m.faculty_id = a.mentor_id ∧
      m.assigned_students = a.student_roll_numbers) ∧
  (∀ (j : Nat) (m : Mentor), st.mentors[j]? = some m → st.assignments.length ≤ j →
    m.assigned_students = [])

/-- A student record that is missing its branch and has a malformed email. -/
def missingBranchRecord : StudentData :=
  { roll_no := some (.vint 1), name := some "John", branch := none,
    year := some (.vint 2), email := some "bad", phone := none }

/-- A student record whose required fields are present but whose roll number,
name, email and phone are all invalid. -/
def allBadRecord : StudentData :=
  { roll_no := some (.vstr "99999"), name := some " ", branch := some "CSE",
    year := some (.vstr "2"), email := some "nope", phone := some "123" }

/-- A loop state whose cursor has run past its (empty) mentor list. -/
def exhaustedState : BatchState :=
  { mentors := [], cursor := 1, assignments := [], unassigned := [], processed := [] }

/-- The assignment created by the two-student demo run. -/
def demoAssignment : Assignment :=
  { mentor_id := "FAC1", student_roll_numbers := [1, 2], batch_number := 1,
    notes := batchNote 2 }

/-- The mentor state after the two-student demo run. -/
def demoLoadedMentor (mx : Nat) : Mentor :=
  { demoMentor "FAC1" mx with assigned_students := ([1, 2] : List Int) }

/-- An unavailable mentor carrying a pre-existing assignment list. -/
def unavailableMentor : Mentor :=
  { faculty_id := "FAC0", name := "Dr0", department := "CS",
    availability := false, assigned_students := [99] }

/-! ## Structural lemmas -/

theorem mergeMentors_getElem?_unavailable :
    ∀ (orig upd : List Mentor) (i : Nat) (m0 : Mentor),
      orig[i]? = some m0 → m0.availability = false → (mergeMentors orig upd)[i]? = some m0 := by
  intro orig
  induction orig with
  | nil => intro upd i m0 hm _; simp at hm
  | cons m rest ih =>
    intro upd i m0 hm hav
    match i with
    | 0 =>
      simp at hm
      subst hm
      simp [mergeMentors, hav]
    | i + 1 =>
      simp at hm
      cases hma : m.availability with
      | false =>
        simp [mergeMentors, hma]
        exact ih upd i m0 hm hav
      | true =>
        cases upd with
        | nil =>
          simp [mergeMentors, hma]
          exact ih [] i m0 hm hav
        | cons u us =>
          simp [mergeMentors, hma]
          exact ih us i m0 hm hav


theorem assign_ok_elim {cfg : Config} {students : List Student} {mentors : List Mentor}
    {out : AssignmentSummary × List Student × List Mentor}
    (h : assign_students_to_mentors cfg students mentors = .ok out) :
    (validate_data_consistency cfg students mentors).1 = true ∧
    mentors.filter (fun m => m.availability) ≠ [] ∧
    out = runAssignment cfg (sortedStudents cfg students) mentors := by
  unfold assign_students_to_mentors at h
  by_cases hv : (validate_data_consistency cfg students mentors).1 = false
  · simp [hv] at h
  · by_cases ha : mentors.filter (fun m => m.availability) = []
    · simp [hv, ha] at h
    · simp [hv, ha] at h
      exact ⟨by revert hv; cases (validate_data_consistency cfg students mentors).1 <;> simp,
        ha, h.symm⟩

theorem nodup_of_dedup_length_eq {α : Type} [DecidableEq α] (l : List α)
    (h : l.length = l.dedup.length) : l.Nodup := by
  have hsub := List.dedup_sublist l
  have : l.dedup = l := hsub.eq_of_length h.symm
  rw [← this]
  exact List.nodup_dedup l

theorem duplicateRollIssues_eq_nil (students : List Student)
    (h : duplicateRollIssues students = []) : (rollsOf students).Nodup := by
  by_cases hc : (students.map (fun s => s.roll_no)).length =
      (students.map (fun s => s.roll_no)).dedup.length
  · exact nodup_of_dedup_length_eq _ hc
  · exfalso
    unfold duplicateRollIssues at h
    rw [if_neg hc] at h
    exact List.cons_ne_nil _ _ h

theorem duplicateFacultyIssues_eq_nil (mentors : List Mentor)
    (h : duplicateFacultyIssues mentors = []) :
    (mentors.map (fun m => m.faculty_id)).Nodup := by
  by_cases hc : (mentors.map (fun m => m.faculty_id)).length =
      (mentors.map (fun m => m.faculty_id)).dedup.length
  · exact nodup_of_dedup_length_eq _ hc
  · exfalso
    unfold duplicateFacultyIssues at h
    rw [if_neg hc] at h
    exact List.cons_ne_nil _ _ h

theorem validation_nodups {cfg : Config} {students : List Student} {mentors : List Mentor}
    (h : (validate_data_consistency cfg students mentors).1 = true) :
    (rollsOf students).Nodup ∧ (mentors.map (fun m => m.faculty_id)).Nodup := by
  have hall : (validate_data_consistency cfg students mentors).2 = [] := by
    revert h
    unfold validate_data_consistency
    simp [List.isEmpty_iff]
  have hfeas : (validate_assignment_feasibility cfg students mentors).2 = [] := by
    have : (validate_data_consistency cfg students mentors).2 =
        ((students.map (fun s =>
          ((validate_student (studentToDict s)).2).map
            (fun e => "Student " ++ toString s.roll_no ++ ": " ++ e))).flatten ++
        (mentors.map (fun m =>
          ((validate_mentor (mentorToDict m)).2).map
            (fun e => "Mentor " ++ m.faculty_id ++ ": " ++ e))).flatten ++
        (validate_assignment_feasibility cfg students mentors).2) := rfl
    rw [this] at hall
    exact (List.append_eq_nil.mp hall).2
  by_cases hpre : (emptinessIssues students mentors).isEmpty
  · have herr : feasibilityErrors cfg students mentors ++
        capacityWarningIssues cfg students mentors = [] := by
      have : (validate_assignment_feasibility cfg students mentors).2 =
          feasibilityErrors cfg students mentors ++
            capacityWarningIssues cfg students mentors := by
        unfold validate_assignment_feasibility
        rw [if_pos hpre]
      rw [← this]
      exact hfeas
    have hfe : feasibilityErrors cfg students mentors = [] := (List.append_eq_nil.mp herr).1
    unfold feasibilityErrors at hfe
    simp only [List.append_eq_nil] at hfe
    exact ⟨duplicateRollIssues_eq_nil students hfe.1.1.1,
      duplicateFacultyIssues_eq_nil mentors hfe.1.1.2⟩
  · exfalso
    have : (validate_assignment_feasibility cfg students mentors).2 =
        emptinessIssues students mentors := by
      unfold validate_assignment_feasibility
      rw [if_neg hpre]
    rw [this] at hfeas
    rw [hfeas] at hpre
    simp at hpre

theorem sortedStudents_perm (cfg : Config) (students : List Student) :
    (sortedStudents cfg students).Perm students := by
  unfold sortedStudents
  by_cases hs : cfg.sort_by_roll_number
  · rw [if_pos hs]
    exact List.perm_insertionSort rollLe students
  · rw [if_neg hs]

theorem completeChunks_flatten (B : Nat) (l : List Student) :
    ∀ k, (completeChunks B k l).flatten = l.take (k * B) := by
  intro k
  induction k with
  | zero => simp [completeChunks]
  | succ k ih =>
    have hstep : completeChunks B (k + 1) l =
        completeChunks B k l ++ [(l.drop (k * B)).take B] := by
      unfold completeChunks
      rw [List.range_succ, List.map_append]
      rfl
    rw [hstep, List.flatten_append, ih]
    simp [Nat.succ_mul, List.take_add]

theorem assignBatch_mentors_length (st : BatchState) (i bn : Nat) (b : List Student) :
    (assignBatch st i bn b).mentors.length = st.mentors.length := by
  unfold assignBatch
  cases h : st.mentors[i]? with
  | none => rfl
  | some m => simp

theorem processOneBatch_mentors_length (cfg : Config) (st : BatchState) (bn : Nat)
    (b : List Student) :
    (processOneBatch cfg st bn b).mentors.length = st.mentors.length := by
  unfold processOneBatch
  by_cases hx : st.mentors.length ≤ st.cursor
  · rw [if_pos hx]
    by_cases hw : cfg.wrap_around_mentors
    · rw [if_pos hw]
      exact assignBatch_mentors_length st 0 bn b
    · rw [if_neg hw]
  · rw [if_neg hx]
    exact assignBatch_mentors_length st st.cursor bn b
theorem assignBatch_eq {st : BatchState} {i : Nat} {mentor : Mentor} (bn : Nat)
    (b : List Student) (hi : st.mentors[i]? = some mentor) :
    assignBatch st i bn b =
      { st with
        mentors := st.mentors.set i
          { mentor with assigned_students := mentor.assigned_students ++ b.map (fun s => s.roll_no) }
        cursor := i + 1
        assignments := st.assignments ++
          [{ mentor_id := mentor.faculty_id, student_roll_numbers := b.map (fun s => s.roll_no),
             batch_number := bn, notes := batchNote b.length }]
        processed := st.processed ++
          b.map (fun s => { s with assigned_mentor_id := some mentor.faculty_id }) } := by
  unfold assignBatch
  rw [hi]

theorem processOneBatch_eq_skip {cfg : Config} {st : BatchState} (bn : Nat) (b : List Student)
    (hx : st.mentors.length ≤ st.cursor) (hw : cfg.wrap_around_mentors = false) :
    processOneBatch cfg st bn b =
      { st with unassigned := st.unassigned ++ b, processed := st.processed ++ b } := by
  unfold processOneBatch
  rw [if_pos hx, hw]
  simp

theorem processOneBatch_eq_assign {cfg : Config} {st : BatchState} (bn : Nat) (b : List Student)
    (hx : st.cursor < st.mentors.length) :
    processOneBatch cfg st bn b = assignBatch st st.cursor bn b := by
  unfold processOneBatch
  rw [if_neg (Nat.not_le.mpr hx)]

theorem processOneBatch_eq_wrap {cfg : Config} {st : BatchState} (bn : Nat) (b : List Student)
    (hx : st.mentors.length ≤ st.cursor) (hw : cfg.wrap_around_mentors = true) :
    processOneBatch cfg st bn b = assignBatch st 0 bn b := by
  unfold processOneBatch
  rw [if_pos hx, hw]
  simp

theorem handleRemainder_eq_unassigned_noLast {cfg : Config} {k : Nat} {rem : List Student}
    {st : BatchState} (hth : rem.length ≤ cfg.remainder_threshold)
    (hlast : st.assignments.getLast? = none) :
    handleRemainder cfg k rem st =
      { st with unassigned := st.unassigned ++ rem, processed := st.processed ++ rem } := by
  unfold handleRemainder
  rw [if_pos hth, hlast]

theorem handleRemainder_eq_unassigned_noFind {cfg : Config} {k : Nat} {rem : List Student}
    {st : BatchState} {last : Assignment} (hth : rem.length ≤ cfg.remainder_threshold)
    (hlast : st.assignments.getLast? = some last)
    (hfind : st.mentors.find? (fun m => m.faculty_id = last.mentor_id) = none) :
    handleRemainder cfg k rem st =
      { st with unassigned := st.unassigned ++ rem, processed := st.processed ++ rem } := by
  unfold handleRemainder
  rw [if_pos hth]
  simp only [hlast]
  rw [hfind]

theorem handleRemainder_eq_unassigned_guard {cfg : Config} {k : Nat} {rem : List Student}
    {st : BatchState} {last : Assignment} {mentor : Mentor}
    (hth : rem.length ≤ cfg.remainder_threshold)
    (hlast : st.assignments.getLast? = some last)
    (hfind : st.mentors.find? (fun m => m.faculty_id = last.mentor_id) = some mentor)
    (hg : mentor.max_students < last.student_roll_numbers.length + rem.length ∧
      cfg.allow_mentor_overload = false) :
    handleRemainder cfg k rem st =
      { st with unassigned := st.unassigned ++ rem, processed := st.processed ++ rem } := by
  unfold handleRemainder
  rw [if_pos hth]
  simp only [hlast]
  simp only [hfind]
  rw [if_pos hg]

theorem handleRemainder_eq_fold {cfg : Config} {k : Nat} {rem : List Student}
    {st : BatchState} {last : Assignment} {mentor : Mentor}
    (hth : rem.length ≤ cfg.remainder_threshold)
    (hlast : st.assignments.getLast? = some last)
    (hfind : st.mentors.find? (fun m => m.faculty_id = last.mentor_id) = some mentor)
    (hg : ¬(mentor.max_students < last.student_roll_numbers.length + rem.length ∧
      cfg.allow_mentor_overload = false)) :
    handleRemainder cfg k rem st =
      { st with
        assignments := st.assignments.dropLast ++
          [{ last with
              student_roll_numbers := last.student_roll_numbers ++ rem.map (fun s => s.roll_no)
              notes := foldNote (last.student_roll_numbers.length + rem.length) rem.length }]
        mentors := extendMentorAssigned last.mentor_id (rem.map (fun s => s.roll_no)) st.mentors
        processed := st.processed ++
          rem.map (fun s => { s with assigned_mentor_id := some mentor.faculty_id }) } := by
  unfold handleRemainder
  rw [if_pos hth]
  simp only [hlast]
  simp only [hfind]
  rw [if_neg hg]

theorem handleRemainder_eq_newAssignment {cfg : Config} {k : Nat} {rem : List Student}
    {st : BatchState} {mentor : Mentor}
    (hth : ¬(rem.length ≤ cfg.remainder_threshold))
    (hcur : st.mentors[st.cursor]? = some mentor) :
    handleRemainder cfg k rem st =
      { st with
        mentors := st.mentors.set st.cursor
          { mentor with
              assigned_students := mentor.assigned_students ++ rem.map (fun s => s.roll_no) }
        assignments := st.assignments ++
          [{ mentor_id := mentor.faculty_id,
              student_roll_numbers := rem.map (fun s => s.roll_no),
              batch_number := k + 1, notes := remainderNote rem.length }]
        processed := st.processed ++
          rem.map (fun s => { s with assigned_mentor_id := some mentor.faculty_id }) } := by
  unfold handleRemainder
  rw [if_neg hth, hcur]

theorem handleRemainder_eq_unassigned_noMentor {cfg : Config} {k : Nat} {rem : List Student}
    {st : BatchState} (hth : ¬(rem.length ≤ cfg.remainder_threshold))
    (hcur : st.mentors[st.cursor]? = none) :
    handleRemainder cfg k rem st =
      { st with unassigned := st.unassigned ++ rem, processed := st.processed ++ rem } := by
  unfold handleRemainder
  rw [if_neg hth, hcur]

theorem footprint_skip_shape (st : BatchState) (b : List Student) :
    footprint { st with unassigned := st.unassigned ++ b, processed := st.processed ++ b } =
      footprint st ++ rollsOf b := by
  unfold footprint rollsOf
  simp [List.append_assoc]

theorem footprint_assignBatch (st : BatchState) (i bn : Nat) (b : List Student)
    (hi : i < st.mentors.length) :
    (footprint (assignBatch st i bn b)).Perm (footprint st ++ rollsOf b) := by
  rw [assignBatch_eq bn b (List.getElem?_eq_getElem hi)]
  unfold footprint
  simp only [List.map_append, List.flatten_append, List.map_cons, List.map_nil,
    List.flatten_cons, List.flatten_nil, List.append_nil, List.append_assoc]
  exact List.Perm.append_left _ List.perm_append_comm

theorem footprint_processOneBatch (cfg : Config) (st : BatchState) (bn : Nat)
    (b : List Student) (hm : st.mentors ≠ []) :
    (footprint (processOneBatch cfg st bn b)).Perm (footprint st ++ rollsOf b) := by
  have hmpos : 0 < st.mentors.length := List.length_pos.mpr hm
  by_cases hx : st.mentors.length ≤ st.cursor
  · by_cases hw : cfg.wrap_around_mentors
    · rw [processOneBatch_eq_wrap bn b hx hw]
      exact footprint_assignBatch st 0 bn b hmpos
    · rw [processOneBatch_eq_skip bn b hx (by revert hw; cases cfg.wrap_around_mentors <;> simp)]
      rw [footprint_skip_shape]
  · rw [processOneBatch_eq_assign bn b (Nat.not_le.mp hx)]
    exact footprint_assignBatch st st.cursor bn b (Nat.not_le.mp hx)

theorem footprint_processBatches (cfg : Config) (batches : List (List Student)) :
    ∀ (st : BatchState) (bn : Nat), st.mentors ≠ [] →
      (footprint (processBatches cfg st bn batches)).Perm
        (footprint st ++ rollsOf batches.flatten) := by
  induction batches with
  | nil => intro st bn _; simp [processBatches, rollsOf]
  | cons b rest ih =>
    intro st bn hm
    have hm1 : (processOneBatch cfg st bn b).mentors ≠ [] := by
      have hlen := processOneBatch_mentors_length cfg st bn b
      intro hc
      rw [hc] at hlen
      exact hm (List.length_eq_zero.mp hlen.symm)
    have h1 := ih (processOneBatch cfg st bn b) (bn + 1) hm1
    have h2 := (footprint_processOneBatch cfg st bn b hm).append_right (rollsOf rest.flatten)
    have hfinal : (footprint st ++ rollsOf b) ++ rollsOf rest.flatten =
        footprint st ++ rollsOf (b :: rest).flatten := by
      unfold rollsOf
      simp [List.append_assoc]
    rw [← hfinal]
    exact h1.trans h2

theorem footprint_handleRemainder (cfg : Config) (k : Nat) (rem : List Student)
    (st : BatchState) :
    (footprint (handleRemainder cfg k rem st)).Perm (footprint st ++ rollsOf rem) := by
  by_cases hth : rem.length ≤ cfg.remainder_threshold
  · cases hlast : st.assignments.getLast? with
    | none =>
      rw [handleRemainder_eq_unassigned_noLast hth hlast, footprint_skip_shape]
    | some last =>
      cases hfind : st.mentors.find? (fun m => m.faculty_id = last.mentor_id) with
      | none =>
        rw [handleRemainder_eq_unassigned_noFind hth hlast hfind, footprint_skip_shape]
      | some mentor =>
        by_cases hg : mentor.max_students < last.student_roll_numbers.length + rem.length ∧
            cfg.allow_mentor_overload = false
        · rw [handleRemainder_eq_unassigned_guard hth hlast hfind hg, footprint_skip_shape]
        · rw [handleRemainder_eq_fold hth hlast hfind hg]
          have hdecomp : st.assignments.dropLast ++ [last] = st.assignments :=
            List.dropLast_append_getLast? last hlast
          unfold footprint
          conv_rhs => rw [← hdecomp]
          simp only [List.map_append, List.flatten_append, List.map_cons, List.map_nil,
            List.flatten_cons, List.flatten_nil, List.append_nil, List.append_assoc]
          refine List.Perm.append_left _ (List.Perm.append_left _ ?_)
          exact List.perm_append_comm
  · cases hcur : st.mentors[st.cursor]? with
    | none =>
      rw [handleRemainder_eq_unassigned_noMentor hth hcur, footprint_skip_shape]
    | some mentor =>
      rw [handleRemainder_eq_newAssignment hth hcur]
      unfold footprint
      simp only [List.map_append, List.flatten_append, List.map_cons, List.map_nil,
        List.flatten_cons, List.flatten_nil, List.append_nil, List.append_assoc]
      exact List.Perm.append_left _ List.perm_append_comm

theorem footprint_initialState (mentors : List Mentor) :
    footprint (initialState mentors) = [] := rfl

theorem initialState_mentors_ne_nil {mentors : List Mentor}
    (hm : mentors.filter (fun m => m.availability) ≠ []) :
    (initialState mentors).mentors ≠ [] := by
  intro hc
  exact hm (List.map_eq_nil_iff.mp hc)

theorem footprint_batchPhase (cfg : Config) (students1 : List Student)
    (mentors : List Mentor) (hm : mentors.filter (fun m => m.availability) ≠ []) :
    (footprint (batchPhase cfg students1 mentors)).Perm
      (rollsOf (students1.take (students1.length / cfg.batch_size * cfg.batch_size))) := by
  have h := footprint_processBatches cfg
    (completeChunks cfg.batch_size (students1.length / cfg.batch_size) students1)
    (initialState mentors) 1 (initialState_mentors_ne_nil hm)
  rw [completeChunks_flatten, footprint_initialState, List.nil_append] at h
  exact h

theorem footprint_finalState (cfg : Config) (students1 : List Student)
    (mentors : List Mentor) (hm : mentors.filter (fun m => m.availability) ≠ []) :
    (footprint (finalState cfg students1 mentors)).Perm (rollsOf students1) := by
  unfold finalState
  by_cases hrem : 0 < students1.length % cfg.batch_size
  · rw [if_pos hrem]
    refine (footprint_handleRemainder cfg _ _ _).trans ?_
    refine ((footprint_batchPhase cfg students1 mentors hm).append_right _).trans ?_
    have hsplit : rollsOf (students1.take (students1.length / cfg.batch_size * cfg.batch_size)) ++
        rollsOf (students1.drop (students1.length / cfg.batch_size * cfg.batch_size)) =
        rollsOf students1 := by
      unfold rollsOf
      rw [← List.map_append, List.take_append_drop]
    rw [hsplit]
  · rw [if_neg hrem]
    have hmod : students1.length % cfg.batch_size = 0 := by omega
    have hcb : students1.length / cfg.batch_size * cfg.batch_size = students1.length :=
      Nat.div_mul_cancel (Nat.dvd_of_mod_eq_zero hmod)
    refine (footprint_batchPhase cfg students1 mentors hm).trans ?_
    rw [hcb, List.take_length]

theorem set_eq_self_of_getElem? {α : Type} {l : List α} {i : Nat} {x : α}
    (h : l[i]? = some x) : l.set i x = l := by
  apply List.ext_getElem?
  intro n
  rw [List.getElem?_set]
  by_cases hin : i = n
  · subst hin
    have hlt : i < l.length := by
      by_contra hc
      rw [List.getElem?_eq_none (Nat.not_lt.mp hc)] at h
      exact Option.noConfusion h
    simp [hlt, h.symm]
  · simp [hin]

theorem map_set_preserved {α : Type} {l : List Mentor} {i : Nat} {m m' : Mentor}
    (f : Mentor → α) (h : l[i]? = some m) (hf : f m' = f m) :
    (l.set i m').map f = l.map f := by
  rw [List.map_set]
  apply set_eq_self_of_getElem?
  rw [List.getElem?_map, h]
  simp [hf]

theorem all_avail_of_map_eq {l l' : List Mentor}
    (h : l'.map (fun m => m.availability) = l.map (fun m => m.availability))
    (hl : ∀ m ∈ l, m.availability = true) : ∀ m ∈ l', m.availability = true := by
  intro m hm
  have hmem : m.availability ∈ l'.map (fun m => m.availability) :=
    List.mem_map_of_mem _ hm
  rw [h] at hmem
  rcases List.mem_map.mp hmem with ⟨x, hx, he⟩
  rw [← he]
  exact hl x hx

theorem mem_of_getLast?_eq_some {α : Type} {l : List α} {a : α}
    (h : l.getLast? = some a) : a ∈ l := by
  have hd := List.dropLast_append_getLast? a h
  rw [← hd]
  exact List.mem_append_right _ (List.mem_singleton.mpr rfl)

theorem extendMentorAssigned_spec (fid : String) (rolls : List Int) :
    ∀ (l : List Mentor) (mentor : Mentor),
      l.find? (fun m => m.faculty_id = fid) = some mentor →
      ∃ i, l[i]? = some mentor ∧
        extendMentorAssigned fid rolls l =
          l.set i { mentor with assigned_students := mentor.assigned_students ++ rolls } := by
  intro l
  induction l with
  | nil => intro mentor h; simp [List.find?] at h
  | cons m rest ih =>
    intro mentor h
    by_cases hm : m.faculty_id = fid
    · have : mentor = m := by
        rw [List.find?_cons] at h
        simp [hm] at h
        exact h.symm
      subst this
      refine ⟨0, by simp, ?_⟩
      unfold extendMentorAssigned
      rw [if_pos hm]
      rfl
    · have hrest : rest.find? (fun m => m.faculty_id = fid) = some mentor := by
        rw [List.find?_cons] at h
        simpa [hm] using h
      obtain ⟨i, hi, hext⟩ := ih mentor hrest
      refine ⟨i + 1, by simpa using hi, ?_⟩
      unfold extendMentorAssigned
      rw [if_neg hm, hext]
      rfl

theorem index_inj_of_nodup_map {l : List Mentor} {i j : Nat} {x y : Mentor}
    (hnd : (l.map (fun m => m.faculty_id)).Nodup)
    (hi : l[i]? = some x) (hj : l[j]? = some y)
    (hf : x.faculty_id = y.faculty_id) : i = j ∧ x = y := by
  have hi' : (l.map (fun m => m.faculty_id))[i]? = some x.faculty_id := by
    rw [List.getElem?_map, hi]
    rfl
  have hj' : (l.map (fun m => m.faculty_id))[j]? = some y.faculty_id := by
    rw [List.getElem?_map, hj]
    rfl
  have hlt : i < (l.map (fun m => m.faculty_id)).length := by
    by_contra hc
    rw [List.getElem?_eq_none (Nat.not_lt.mp hc)] at hi'
    exact Option.noConfusion hi'
  have hij : i = j := by
    apply List.getElem?_inj hlt hnd
    rw [hi', hj', hf]
  subst hij
  rw [hi] at hj
  exact ⟨rfl, Option.some.injEq .. ▸ hj⟩

theorem not_mem_right_of_nodup_triple {P B pend : List Int}
    (h : (P ++ (B ++ pend)).Nodup) : ∀ r ∈ P, r ∉ B := by
  have hsub : (P ++ B).Sublist (P ++ (B ++ pend)) :=
    (List.sublist_append_left B pend).append_left P
  have hnd : (P ++ B).Nodup := hsub.nodup h
  intro r hr
  exact List.disjoint_of_nodup_append hnd hr

theorem nodup_shift {P B pend : List Int}
    (h : (P ++ (B ++ pend)).Nodup) : ((P ++ B) ++ pend).Nodup := by
  rw [List.append_assoc]
  exact h

theorem extendMentorAssigned_map_shape (fid : String) (rolls : List Int) :
    ∀ l : List Mentor,
      (extendMentorAssigned fid rolls l).map mentorShape = l.map mentorShape := by
  intro l
  induction l with
  | nil => rfl
  | cons m rest ih =>
    unfold extendMentorAssigned
    by_cases hm : m.faculty_id = fid
    · rw [if_pos hm]
      simp [mentorShape]
    · rw [if_neg hm]
      simp [ih]

theorem assignBatch_map_shape (st : BatchState) (i bn : Nat) (b : List Student) :
    (assignBatch st i bn b).mentors.map mentorShape = st.mentors.map mentorShape := by
  unfold assignBatch
  cases h : st.mentors[i]? with
  | none => rfl
  | some m => exact map_set_preserved mentorShape h rfl

theorem processOneBatch_map_shape (cfg : Config) (st : BatchState) (bn : Nat)
    (b : List Student) :
    (processOneBatch cfg st bn b).mentors.map mentorShape = st.mentors.map mentorShape := by
  unfold processOneBatch
  by_cases hx : st.mentors.length ≤ st.cursor
  · rw [if_pos hx]
    by_cases hw : cfg.wrap_around_mentors
    · rw [if_pos hw]
      exact assignBatch_map_shape st 0 bn b
    · rw [if_neg hw]
  · rw [if_neg hx]
    exact assignBatch_map_shape st st.cursor bn b

theorem processBatches_map_shape (cfg : Config) (batches : List (List Student)) :
    ∀ (st : BatchState) (bn : Nat),
      (processBatches cfg st bn batches).mentors.map mentorShape =
        st.mentors.map mentorShape := by
  induction batches with
  | nil => intro st bn; rfl
  | cons b rest ih =>
    intro st bn
    rw [show processBatches cfg st bn (b :: rest) =
      processBatches cfg (processOneBatch cfg st bn b) (bn + 1) rest from rfl]
    rw [ih, processOneBatch_map_shape]

theorem handleRemainder_map_shape (cfg : Config) (k : Nat) (rem : List Student)
    (st : BatchState) :
    (handleRemainder cfg k rem st).mentors.map mentorShape = st.mentors.map mentorShape := by
  by_cases hth : rem.length ≤ cfg.remainder_threshold
  · cases hlast : st.assignments.getLast? with
    | none => rw [handleRemainder_eq_unassigned_noLast hth hlast]
    | some last =>
      cases hfind : st.mentors.find? (fun m => m.faculty_id = last.mentor_id) with
      | none => rw [handleRemainder_eq_unassigned_noFind hth hlast hfind]
      | some mentor =>
        by_cases hg : mentor.max_students < last.student_roll_numbers.length + rem.length ∧
            cfg.allow_mentor_overload = false
        · rw [handleRemainder_eq_unassigned_guard hth hlast hfind hg]
        · rw [handleRemainder_eq_fold hth hlast hfind hg]
          exact extendMentorAssigned_map_shape _ _ _
  · cases hcur : st.mentors[st.cursor]? with
    | none => rw [handleRemainder_eq_unassigned_noMentor hth hcur]
    | some mentor =>
      rw [handleRemainder_eq_newAssignment hth hcur]
      exact map_set_preserved mentorShape hcur rfl

theorem resetAvailable_map_shape (mentors : List Mentor) :
    (resetAvailable mentors).map mentorShape =
      (mentors.filter (fun m => m.availability)).map mentorShape := by
  unfold resetAvailable
  rw [List.map_map]
  rfl

theorem finalState_map_shape (cfg : Config) (students1 : List Student)
    (mentors : List Mentor) :
    (finalState cfg students1 mentors).mentors.map mentorShape =
      (mentors.filter (fun m => m.availability)).map mentorShape := by
  unfold finalState
  by_cases hrem : 0 < students1.length % cfg.batch_size
  · rw [if_pos hrem, handleRemainder_map_shape]
    unfold batchPhase
    rw [processBatches_map_shape]
    exact resetAvailable_map_shape mentors
  · rw [if_neg hrem]
    unfold batchPhase
    rw [processBatches_map_shape]
    exact resetAvailable_map_shape mentors

theorem mergeMentors_mem_upd :
    ∀ (orig upd : List Mentor),
      upd.map mentorShape = (orig.filter (fun m => m.availability)).map mentorShape →
      ∀ u ∈ upd, u ∈ mergeMentors orig upd := by
  intro orig
  induction orig with
  | nil =>
    intro upd hupd u hu
    simp at hupd
    rw [hupd] at hu
    simp at hu
  | cons m rest ih =>
    intro upd hupd u hu
    cases hma : m.availability with
    | true =>
      rw [List.filter_cons_of_pos (by simp [hma])] at hupd
      cases upd with
      | nil => simp at hupd
      | cons v vs =>
        simp only [List.map_cons] at hupd
        have hv := (List.cons.injEq .. ▸ hupd).1
        have hvs := (List.cons.injEq .. ▸ hupd).2
        unfold mergeMentors
        rw [if_pos hma]
        rcases List.mem_cons.mp hu with rfl | hu
        · exact List.mem_cons_self _ _
        · exact List.mem_cons_of_mem _ (ih vs hvs u hu)
    | false =>
      rw [List.filter_cons_of_neg (by simp [hma])] at hupd
      unfold mergeMentors
      rw [if_neg (by simp [hma])]
      exact List.mem_cons_of_mem _ (ih upd hupd u hu)

theorem mergeMentors_map_shape :
    ∀ (orig upd : List Mentor),
      upd.map mentorShape = (orig.filter (fun m => m.availability)).map mentorShape →
      (mergeMentors orig upd).map mentorShape = orig.map mentorShape := by
  intro orig
  induction orig with
  | nil => intro upd _; rfl
  | cons m rest ih =>
    intro upd hupd
    cases hma : m.availability with
    | true =>
      rw [List.filter_cons_of_pos (by simp [hma])] at hupd
      cases upd with
      | nil => simp at hupd
      | cons v vs =>
        simp only [List.map_cons] at hupd
        have hv := (List.cons.injEq .. ▸ hupd).1
        have hvs := (List.cons.injEq .. ▸ hupd).2
        unfold mergeMentors
        rw [if_pos hma]
        simp only [List.map_cons]
        rw [hv, ih vs hvs]
    | false =>
      rw [List.filter_cons_of_neg (by simp [hma])] at hupd
      unfold mergeMentors
      rw [if_neg (by simp [hma])]
      simp only [List.map_cons]
      rw [ih upd hupd]

theorem mergeMentors_mem_cases :
    ∀ (orig upd : List Mentor),
      upd.map mentorShape = (orig.filter (fun m => m.availability)).map mentorShape →
      ∀ x ∈ mergeMentors orig upd, x ∈ upd ∨ (x ∈ orig ∧ x.availability = false) := by
  intro orig
  induction orig with
  | nil => intro upd _ x hx; simp [mergeMentors] at hx
  | cons m rest ih =>
    intro upd hupd x hx
    cases hma : m.availability with
    | true =>
      rw [List.filter_cons_of_pos (by simp [hma])] at hupd
      cases upd with
      | nil => simp at hupd
      | cons v vs =>
        simp only [List.map_cons] at hupd
        have hvs := (List.cons.injEq .. ▸ hupd).2
        unfold mergeMentors at hx
        rw [if_pos hma] at hx
        rcases List.mem_cons.mp hx with rfl | hx
        · exact Or.inl (List.mem_cons_self _ _)
        · rcases ih vs hvs x hx with h | ⟨h1, h2⟩
          · exact Or.inl (List.mem_cons_of_mem _ h)
          · exact Or.inr ⟨List.mem_cons_of_mem _ h1, h2⟩
    | false =>
      rw [List.filter_cons_of_neg (by simp [hma])] at hupd
      unfold mergeMentors at hx
      rw [if_neg (by simp [hma])] at hx
      rcases List.mem_cons.mp hx with rfl | hx
      · exact Or.inr ⟨List.mem_cons_self _ _, hma⟩
      · rcases ih upd hupd x hx with h | ⟨h1, h2⟩
        · exact Or.inl h
        · exact Or.inr ⟨List.mem_cons_of_mem _ h1, h2⟩

theorem map_faculty_of_map_shape {l l' : List Mentor}
    (h : l.map mentorShape = l'.map mentorShape) :
    l.map (fun m => m.faculty_id) = l'.map (fun m => m.faculty_id) := by
  have := congrArg (List.map (fun p : String × Bool × Nat => p.1)) h
  rw [List.map_map, List.map_map] at this
  exact this

theorem map_avail_of_map_shape {l l' : List Mentor}
    (h : l.map mentorShape = l'.map mentorShape) :
    l.map (fun m => m.availability) = l'.map (fun m => m.availability) := by
  have := congrArg (List.map (fun p : String × Bool × Nat => p.2.1)) h
  rw [List.map_map, List.map_map] at this
  exact this

theorem StateInv_skip {st : BatchState} {b : List Student} {pending : List Int}
    (h : StateInv st (rollsOf b ++ pending)) :
    StateInv { st with unassigned := st.unassigned ++ b, processed := st.processed ++ b }
      pending := by
  obtain ⟨hid, hav, hnd, hP5, hP6, hP1, hP2, hP3⟩ := h
  have hroll : rollsOf (st.processed ++ b) = rollsOf st.processed ++ rollsOf b := by
    unfold rollsOf
    rw [List.map_append]
  have hdisj : ∀ r ∈ rollsOf st.processed, r ∉ rollsOf b :=
    not_mem_right_of_nodup_triple hnd
  refine ⟨hid, hav, ?_, ?_, ?_, ?_, hP2, ?_⟩
  · show (rollsOf (st.processed ++ b) ++ pending).Nodup
    rw [hroll]
    exact nodup_shift hnd
  · intro a ha r hr
    show r ∈ rollsOf (st.processed ++ b)
    rw [hroll]
    exact List.mem_append_left _ (hP5 a ha r hr)
  · intro s hs
    show s.roll_no ∈ rollsOf (st.processed ++ b)
    rw [hroll]
    rcases List.mem_append.mp hs with hs | hs
    · exact List.mem_append_left _ (hP6 s hs)
    · exact List.mem_append_right _ (List.mem_map_of_mem _ hs)
  · intro s hs a ha hmem
    rcases List.mem_append.mp hs with hs | hs
    · exact hP1 s hs a ha hmem
    · exact absurd hmem (fun hmem =>
        hdisj _ (hP5 a ha _ hmem) (List.mem_map_of_mem _ hs))
  · intro s hs a ha
    rcases List.mem_append.mp hs with hs | hs
    · exact hP3 s hs a ha
    · intro hmem
      exact hdisj _ (hP5 a ha _ hmem) (List.mem_map_of_mem _ hs)

theorem StateInv_assignShape {st : BatchState} {i : Nat} {mentor : Mentor}
    {b : List Student} {pending : List Int} (cur' : Nat) (newAsg : Assignment)
    (hi : st.mentors[i]? = some mentor)
    (hnid : newAsg.mentor_id = mentor.faculty_id)
    (hrolls : newAsg.student_roll_numbers = b.map (fun s => s.roll_no))
    (h : StateInv st (rollsOf b ++ pending)) :
    StateInv
      { st with
        mentors := st.mentors.set i
          { mentor with
              assigned_students := mentor.assigned_students ++ b.map (fun s => s.roll_no) }
        cursor := cur'
        assignments := st.assignments ++ [newAsg]
        processed := st.processed ++
          b.map (fun s => { s with assigned_mentor_id := some mentor.faculty_id }) }
      pending := by
  obtain ⟨hid0, hav0, hnd, hP5, hP6, hP1, hP2, hP3⟩ := h
  have hlt : i < st.mentors.length := by
    by_contra hc
    rw [List.getElem?_eq_none (Nat.not_lt.mp hc)] at hi
    exact Option.noConfusion hi
  have hroll : rollsOf (st.processed ++
      b.map (fun s => { s with assigned_mentor_id := some mentor.faculty_id })) =
      rollsOf st.processed ++ rollsOf b := by
    unfold rollsOf
    rw [List.map_append, List.map_map]
    rfl
  have hdisj : ∀ r ∈ rollsOf st.processed, r ∉ rollsOf b :=
    not_mem_right_of_nodup_triple hnd
  have hmapid : (st.mentors.set i
      { mentor with
          assigned_students := mentor.assigned_students ++ b.map (fun s => s.roll_no) }).map
        (fun m => m.faculty_id) = st.mentors.map (fun m => m.faculty_id) :=
    map_set_preserved (fun m => m.faculty_id) hi rfl
  have hmapav : (st.mentors.set i
      { mentor with
          assigned_students := mentor.assigned_students ++ b.map (fun s => s.roll_no) }).map
        (fun m => m.availability) = st.mentors.map (fun m => m.availability) :=
    map_set_preserved (fun m => m.availability) hi rfl
  unfold StateInv
  dsimp only
  refine ⟨?_, ?_, ?_, ?_, ?_, ?_, ?_, ?_⟩
  · rw [hmapid]
    exact hid0
  · exact all_avail_of_map_eq hmapav hav0
  · rw [hroll]
    exact nodup_shift hnd
  · intro a ha r hr
    rw [hroll]
    rcases List.mem_append.mp ha with ha | ha
    · exact List.mem_append_left _ (hP5 a ha r hr)
    · have he : a = newAsg := List.mem_singleton.mp ha
      subst he
      rw [hrolls] at hr
      exact List.mem_append_right _ hr
  · intro s hs
    rw [hroll]
    exact List.mem_append_left _ (hP6 s hs)
  · intro s hs a ha hmem
    rcases List.mem_append.mp hs with hs | hs
    · rcases List.mem_append.mp ha with ha | ha
      · exact hP1 s hs a ha hmem
      · exfalso
        have he : a = newAsg := List.mem_singleton.mp ha
        subst he
        rw [hrolls] at hmem
        exact hdisj _ (List.mem_map_of_mem _ hs) hmem
    · rcases List.mem_map.mp hs with ⟨x, hx, hxe⟩
      rcases List.mem_append.mp ha with ha | ha
      · exfalso
        have h1 : s.roll_no ∈ rollsOf st.processed := hP5 a ha _ hmem
        have h2 : s.roll_no ∈ rollsOf b := by
          rw [← hxe]
          show x.roll_no ∈ rollsOf b
          exact List.mem_map_of_mem _ hx
        exact hdisj _ h1 h2
      · have he : a = newAsg := List.mem_singleton.mp ha
        subst he
        rw [hnid, ← hxe]
  · intro a ha
    rcases List.mem_append.mp ha with ha | ha
    · obtain ⟨j, m0, hj, hjid, hjsub⟩ := hP2 a ha
      by_cases hji : j = i
      · subst hji
        rw [hi] at hj
        have hm0 : m0 = mentor := (Option.some.inj hj).symm
        subst hm0
        refine ⟨j, { m0 with
          assigned_students := m0.assigned_students ++ b.map (fun s => s.roll_no) },
          ?_, hjid, ?_⟩
        · rw [List.getElem?_set]
          simp [hlt]
        · intro r hr
          exact List.mem_append_left _ (hjsub r hr)
      · refine ⟨j, m0, ?_, hjid, hjsub⟩
        rw [List.getElem?_set, if_neg (fun hh => hji hh.symm)]
        exact hj
    · have he : a = newAsg := List.mem_singleton.mp ha
      subst he
      refine ⟨i, { mentor with
        assigned_students := mentor.assigned_students ++ b.map (fun s => s.roll_no) },
        ?_, by rw [hnid], ?_⟩
      · rw [List.getElem?_set]
        simp [hlt]
      · intro r hr
        rw [hrolls] at hr
        exact List.mem_append_right _ hr
  · intro s hs a ha
    rcases List.mem_append.mp ha with ha | ha
    · exact hP3 s hs a ha
    · have he : a = newAsg := List.mem_singleton.mp ha
      subst he
      intro hmem
      rw [hrolls] at hmem
      exact hdisj _ (hP6 s hs) hmem

theorem StateInv_processOneBatch {cfg : Config} {st : BatchState} {bn : Nat}
    {b : List Student} {pending : List Int} (hm : st.mentors ≠ [])
    (h : StateInv st (rollsOf b ++ pending)) :
    StateInv (processOneBatch cfg st bn b) pending := by
  by_cases hx : st.mentors.length ≤ st.cursor
  · by_cases hw : cfg.wrap_around_mentors
    · rw [processOneBatch_eq_wrap bn b hx hw]
      have h0 : 0 < st.mentors.length := List.length_pos.mpr hm
      have hm0 : st.mentors[0]? = some st.mentors[0] := List.getElem?_eq_getElem h0
      rw [assignBatch_eq bn b hm0]
      exact StateInv_assignShape 1 _ hm0 rfl rfl h
    · rw [processOneBatch_eq_skip bn b hx (by revert hw; cases cfg.wrap_around_mentors <;> simp)]
      exact StateInv_skip h
  · have hlt := Nat.not_le.mp hx
    have hm0 : st.mentors[st.cursor]? = some st.mentors[st.cursor] :=
      List.getElem?_eq_getElem hlt
    rw [processOneBatch_eq_assign bn b hlt, assignBatch_eq bn b hm0]
    exact StateInv_assignShape (st.cursor + 1) _ hm0 rfl rfl h

theorem StateInv_processBatches {cfg : Config} (batches : List (List Student)) :
    ∀ (st : BatchState) (bn : Nat) (pending : List Int), st.mentors ≠ [] →
      StateInv st (rollsOf batches.flatten ++ pending) →
      StateInv (processBatches cfg st bn batches) pending := by
  induction batches with
  | nil => intro st bn pending _ h; exact h
  | cons b rest ih =>
    intro st bn pending hm h
    have hsplit : rollsOf (b :: rest).flatten ++ pending =
        rollsOf b ++ (rollsOf rest.flatten ++ pending) := by
      unfold rollsOf
      simp [List.append_assoc]
    rw [hsplit] at h
    have hm1 : (processOneBatch cfg st bn b).mentors ≠ [] := by
      have hlen := processOneBatch_mentors_length cfg st bn b
      intro hc
      rw [hc] at hlen
      exact hm (List.length_eq_zero.mp hlen.symm)
    exact ih _ (bn + 1) pending hm1 (StateInv_processOneBatch hm h)

theorem StateInv_handleRemainder {cfg : Config} {k : Nat} {rem : List Student}
    {st : BatchState} (h : StateInv st (rollsOf rem)) :
    StateInv (handleRemainder cfg k rem st) [] := by
  have h' : StateInv st (rollsOf rem ++ []) := by rwa [List.append_nil]
  by_cases hth : rem.length ≤ cfg.remainder_threshold
  · cases hlast : st.assignments.getLast? with
    | none =>
      rw [handleRemainder_eq_unassigned_noLast hth hlast]
      exact StateInv_skip h'
    | some last =>
      cases hfind : st.mentors.find? (fun m => m.faculty_id = last.mentor_id) with
      | none =>
        rw [handleRemainder_eq_unassigned_noFind hth hlast hfind]
        exact StateInv_skip h'
      | some mentor =>
        by_cases hg : mentor.max_students < last.student_roll_numbers.length + rem.length ∧
            cfg.allow_mentor_overload = false
        · rw [handleRemainder_eq_unassigned_guard hth hlast hfind hg]
          exact StateInv_skip h'
        · rw [handleRemainder_eq_fold hth hlast hfind hg]
          obtain ⟨hid0, hav0, hnd, hP5, hP6, hP1, hP2, hP3⟩ := h
          have hfid : mentor.faculty_id = last.mentor_id := by
            have := List.find?_some hfind
            simpa using this
          have hlastmem : last ∈ st.assignments := mem_of_getLast?_eq_some hlast
          obtain ⟨i, hi, hext⟩ :=
            extendMentorAssigned_spec last.mentor_id (rem.map (fun s => s.roll_no))
              st.mentors mentor hfind
          have hlt : i < st.mentors.length := by
            by_contra hc
            rw [List.getElem?_eq_none (Nat.not_lt.mp hc)] at hi
            exact Option.noConfusion hi
          rw [hext]
          obtain ⟨j, m0, hj, hjid, hjsub⟩ := hP2 last hlastmem
          obtain ⟨hje, hme⟩ :=
            index_inj_of_nodup_map hid0 hj hi (by rw [hjid, hfid])
          subst hje
          subst hme
          have hdisj : ∀ r ∈ rollsOf st.processed, r ∉ rollsOf rem :=
            fun r hr => List.disjoint_of_nodup_append hnd hr
          have hroll : rollsOf (st.processed ++
              rem.map (fun s => { s with assigned_mentor_id := some m0.faculty_id })) =
              rollsOf st.processed ++ rollsOf rem := by
            unfold rollsOf
            rw [List.map_append, List.map_map]
            rfl
          have hdl : st.assignments.dropLast ⊆ st.assignments :=
            (List.dropLast_sublist _).subset
          have hmapid : (st.mentors.set j { m0 with
              assigned_students := m0.assigned_students ++ rem.map (fun s => s.roll_no) }).map
                (fun m => m.faculty_id) = st.mentors.map (fun m => m.faculty_id) :=
            map_set_preserved (fun m => m.faculty_id) hj rfl
          have hmapav : (st.mentors.set j { m0 with
              assigned_students := m0.assigned_students ++ rem.map (fun s => s.roll_no) }).map
                (fun m => m.availability) = st.mentors.map (fun m => m.availability) :=
            map_set_preserved (fun m => m.availability) hj rfl
          unfold StateInv
          dsimp only
          refine ⟨?_, ?_, ?_, ?_, ?_, ?_, ?_, ?_⟩
          · rw [hmapid]
            exact hid0
          · exact all_avail_of_map_eq hmapav hav0
          · rw [hroll, List.append_nil]
            exact hnd
          · intro a ha r hr
            rw [hroll]
            rcases List.mem_append.mp ha with ha | ha
            · exact List.mem_append_left _ (hP5 a (hdl ha) r hr)
            · have he : a = _ := List.mem_singleton.mp ha
              subst he
              rcases List.mem_append.mp hr with hr | hr
              · exact List.mem_append_left _ (hP5 last hlastmem r hr)
              · exact List.mem_append_right _ hr
          · intro s hs
            rw [hroll]
            exact List.mem_append_left _ (hP6 s hs)
          · intro s hs a ha hmem
            rcases List.mem_append.mp hs with hs | hs
            · rcases List.mem_append.mp ha with ha | ha
              · exact hP1 s hs a (hdl ha) hmem
              · have he : a = _ := List.mem_singleton.mp ha
                subst he
                rcases List.mem_append.mp hmem with hmem | hmem
                · exact hP1 s hs last hlastmem hmem
                · exact absurd hmem (hdisj _ (List.mem_map_of_mem _ hs))
            · rcases List.mem_map.mp hs with ⟨x, hx, hxe⟩
              have hsroll : s.roll_no ∈ rollsOf rem := by
                rw [← hxe]
                show x.roll_no ∈ rollsOf rem
                exact List.mem_map_of_mem _ hx
              rcases List.mem_append.mp ha with ha | ha
              · exact absurd hsroll (fun hc => hdisj _ (hP5 a (hdl ha) _ hmem) hc)
              · have he : a = _ := List.mem_singleton.mp ha
                subst he
                show s.assigned_mentor_id = some last.mentor_id
                rw [← hxe, ← hfid]
          · intro a ha
            rcases List.mem_append.mp ha with ha | ha
            · obtain ⟨j', m', hj', hjid', hjsub'⟩ := hP2 a (hdl ha)
              by_cases hji : j' = j
              · subst hji
                rw [hj'] at hj
                have hm' : m' = m0 := Option.some.inj hj
                subst hm'
                refine ⟨j', { m' with
                  assigned_students := m'.assigned_students ++ rem.map (fun s => s.roll_no) },
                  ?_, hjid', ?_⟩
                · rw [List.getElem?_set]
                  simp [hlt]
                · intro r hr
                  exact List.mem_append_left _ (hjsub' r hr)
              · refine ⟨j', m', ?_, hjid', hjsub'⟩
                rw [List.getElem?_set, if_neg (fun hh => hji hh.symm)]
                exact hj'
            · have he : a = _ := List.mem_singleton.mp ha
              subst he
              refine ⟨j, { m0 with
                assigned_students := m0.assigned_students ++ rem.map (fun s => s.roll_no) },
                ?_, ?_, ?_⟩
              · rw [List.getElem?_set]
                simp [hlt]
              · show m0.faculty_id = last.mentor_id
                rw [hjid]
              · intro r hr
                rcases List.mem_append.mp hr with hr | hr
                · exact List.mem_append_left _ (hjsub r hr)
                · exact List.mem_append_right _ hr
          · intro s hs a ha
            rcases List.mem_append.mp ha with ha | ha
            · exact hP3 s hs a (hdl ha)
            · have he : a = _ := List.mem_singleton.mp ha
              subst he
              intro hmem
              rcases List.mem_append.mp hmem with hmem | hmem
              · exact hP3 s hs last hlastmem hmem
              · exact hdisj _ (hP6 s hs) hmem
  · cases hcur : st.mentors[st.cursor]? with
    | none =>
      rw [handleRemainder_eq_unassigned_noMentor hth hcur]
      exact StateInv_skip h'
    | some mentor =>
      rw [handleRemainder_eq_newAssignment hth hcur]
      exact StateInv_assignShape st.cursor _ hcur rfl rfl h'

theorem StateInv_initialState {students1 : List Student} {mentors : List Mentor}
    (hndS : (rollsOf students1).Nodup)
    (hndF : (mentors.map (fun m => m.faculty_id)).Nodup) :
    StateInv (initialState mentors) (rollsOf students1) := by
  refine ⟨?_, ?_, ?_, ?_, ?_, ?_, ?_, ?_⟩
  · have hmap : (resetAvailable mentors).map (fun m => m.faculty_id) =
        (mentors.filter (fun m => m.availability)).map (fun m => m.faculty_id) :=
      map_faculty_of_map_shape (resetAvailable_map_shape mentors)
    show ((resetAvailable mentors).map (fun m => m.faculty_id)).Nodup
    rw [hmap]
    exact ((List.filter_sublist _).map _).nodup hndF
  · intro m hm
    rcases List.mem_map.mp hm with ⟨x, hx, he⟩
    have hxa : x.availability = true := by
      have := List.of_mem_filter hx
      simpa using this
    rw [← he]
    exact hxa
  · show (rollsOf ([] : List Student) ++ rollsOf students1).Nodup
    simpa [rollsOf] using hndS
  · intro a ha; exact absurd ha (List.not_mem_nil a)
  · intro s hs; exact absurd hs (List.not_mem_nil s)
  · intro s hs; exact absurd hs (List.not_mem_nil s)
  · intro a ha; exact absurd ha (List.not_mem_nil a)
  · intro s hs; exact absurd hs (List.not_mem_nil s)

theorem StateInv_finalState {cfg : Config} {students1 : List Student} {mentors : List Mentor}
    (hm : mentors.filter (fun m => m.availability) ≠ [])
    (hndS : (rollsOf students1).Nodup)
    (hndF : (mentors.map (fun m => m.faculty_id)).Nodup) :
    StateInv (finalState cfg students1 mentors) [] := by
  have hinit := StateInv_initialState hndS hndF
  have hne := initialState_mentors_ne_nil hm
  have hsplit : rollsOf students1 =
      rollsOf (students1.take (students1.length / cfg.batch_size * cfg.batch_size)) ++
      rollsOf (students1.drop (students1.length / cfg.batch_size * cfg.batch_size)) := by
    unfold rollsOf
    rw [← List.map_append, List.take_append_drop]
  unfold finalState
  by_cases hrem : 0 < students1.length % cfg.batch_size
  · rw [if_pos hrem]
    apply StateInv_handleRemainder
    apply StateInv_processBatches _ _ _ _ hne
    rw [completeChunks_flatten, ← hsplit]
    exact hinit
  · rw [if_neg hrem]
    have hmod : students1.length % cfg.batch_size = 0 := by omega
    have hcb : students1.length / cfg.batch_size * cfg.batch_size = students1.length :=
      Nat.div_mul_cancel (Nat.dvd_of_mod_eq_zero hmod)
    apply StateInv_processBatches _ _ _ _ hne
    rw [completeChunks_flatten, List.append_nil, hcb, List.take_length]
    exact hinit

theorem CapInv_processOneBatch {cfg : Config} {B : Nat} {st : BatchState} {bn : Nat}
    {b : List Student} (hwrap : cfg.wrap_around_mentors = false) (hb : b.length ≤ B)
    (h : CapInv B st) : CapInv B (processOneBatch cfg st bn b) := by
  obtain ⟨hcur, hA, hE⟩ := h
  by_cases hx : st.mentors.length ≤ st.cursor
  · rw [processOneBatch_eq_skip bn b hx hwrap]
    exact ⟨hcur, hA, hE⟩
  · have hlt := Nat.not_le.mp hx
    have hm0 : st.mentors[st.cursor]? = some st.mentors[st.cursor] :=
      List.getElem?_eq_getElem hlt
    rw [processOneBatch_eq_assign bn b hlt, assignBatch_eq bn b hm0]
    have hempty : st.mentors[st.cursor].assigned_students = [] :=
      hE st.cursor _ hm0 (by omega)
    unfold CapInv
    dsimp only
    refine ⟨by simp [hcur], ?_, ?_⟩
    · intro j a ha
      by_cases hj : j < st.assignments.length
      · rw [List.getElem?_append_left hj] at ha
        obtain ⟨hlen, m1, hm1, hfid1, heq1⟩ := hA j a ha
        refine ⟨hlen, m1, ?_, hfid1, heq1⟩
        rw [List.getElem?_set, if_neg (by omega)]
        exact hm1
      · by_cases hj2 : j = st.assignments.length
        · subst hj2
          rw [List.getElem?_concat_length] at ha
          have he := Option.some.inj ha
          subst he
          refine ⟨by simpa using hb,
            { st.mentors[st.cursor] with assigned_students :=
                st.mentors[st.cursor].assigned_students ++ b.map (fun s => s.roll_no) },
            ?_, rfl, ?_⟩
          · rw [List.getElem?_set, if_pos hcur, if_pos hlt]
          · dsimp only
            rw [hempty]
            simp
        · exfalso
          have : (st.assignments ++
              [{ mentor_id := st.mentors[st.cursor].faculty_id,
                  student_roll_numbers := b.map (fun s => s.roll_no),
                  batch_number := bn, notes := batchNote b.length }])[j]? = none := by
            apply List.getElem?_eq_none
            simp only [List.length_append, List.length_cons, List.length_nil]
            omega
          rw [this] at ha
          exact Option.noConfusion ha
    · intro j m hm hj
      rw [List.length_append] at hj
      simp only [List.length_cons, List.length_nil] at hj
      rw [List.getElem?_set, if_neg (by omega)] at hm
      exact hE j m hm (by omega)

theorem CapInv_processBatches {cfg : Config} {B : Nat}
    (hwrap : cfg.wrap_around_mentors = false) (batches : List (List Student)) :
    ∀ (st : BatchState) (bn : Nat), (∀ b ∈ batches, b.length ≤ B) → CapInv B st →
      CapInv B (processBatches cfg st bn batches) := by
  induction batches with
  | nil => intro st bn _ h; exact h
  | cons b rest ih =>
    intro st bn hb h
    exact ih _ (bn + 1) (fun c hc => hb c (List.mem_cons_of_mem _ hc))
      (CapInv_processOneBatch hwrap (hb b (List.mem_cons_self _ _)) h)

theorem CapInv_initialState (B : Nat) (mentors : List Mentor) :
    CapInv B (initialState mentors) := by
  refine ⟨rfl, ?_, ?_⟩
  · intro j a ha
    simp [initialState] at ha
  · intro j m hm _
    unfold initialState resetAvailable at hm
    rw [List.getElem?_map] at hm
    cases hx : (mentors.filter (fun m => m.availability))[j]? with
    | none => rw [hx] at hm; exact Option.noConfusion hm
    | some x =>
      rw [hx] at hm
      have := Option.some.inj hm
      rw [← this]

theorem completeChunks_length_le (B k : Nat) (l : List Student) :
    ∀ c ∈ completeChunks B k l, c.length ≤ B := by
  intro c hc
  unfold completeChunks at hc
  rcases List.mem_map.mp hc with ⟨i, _, he⟩
  rw [← he, List.length_take]
  exact min_le_left _ _

theorem CapInv_mentors_bound {B : Nat} {st : BatchState} (h : CapInv B st) :
    ∀ (j : Nat) (m : Mentor), st.mentors[j]? = some m →
      m.assigned_students.length ≤ B := by
  obtain ⟨-, hA, hE⟩ := h
  intro j m hm
  cases ha : st.assignments[j]? with
  | some a =>
    obtain ⟨hlen, m1, hm1, -, heq1⟩ := hA j a ha
    rw [hm1] at hm
    have := Option.some.inj hm
    subst this
    rw [heq1]
    exact hlen
  | none =>
    have hj : st.assignments.length ≤ j := by
      by_contra hc
      rw [List.getElem?_eq_getElem (Nat.not_le.mp hc)] at ha
      exact Option.noConfusion ha
    rw [hE j m hm hj]
    simp

theorem max_bound_of_map_shape_eq {l l' : List Mentor} {B : Nat}
    (h : l'.map mentorShape = l.map mentorShape)
    (hl : ∀ m ∈ l, B ≤ m.max_students) : ∀ m ∈ l', B ≤ m.max_students := by
  intro m hm
  have hmem : mentorShape m ∈ l'.map mentorShape := List.mem_map_of_mem _ hm
  rw [h] at hmem
  rcases List.mem_map.mp hmem with ⟨x, hx, he⟩
  have : m.max_students = x.max_students := by
    have := congrArg (fun p : String × Bool × Nat => p.2.2) he
    simpa [mentorShape] using this.symm
  rw [this]
  exact hl x hx

theorem finalState_capacity_bound {cfg : Config} {students1 : List Student}
    {mentors : List Mentor}
    (hwrap : cfg.wrap_around_mentors = false)
    (hover : cfg.allow_mentor_overload = false)
    (hB : 0 < cfg.batch_size)
    (hndF : (mentors.map (fun m => m.faculty_id)).Nodup)
    (hcap : ∀ m ∈ mentors, m.availability = true → cfg.batch_size ≤ m.max_students) :
    ∀ m ∈ (finalState cfg students1 mentors).mentors,
      m.assigned_students.length ≤ m.max_students := by
  have hcapF : ∀ m ∈ mentors.filter (fun m => m.availability), cfg.batch_size ≤ m.max_students := by
    intro m hm
    exact hcap m (List.mem_of_mem_filter hm) (by simpa using List.of_mem_filter hm)
  have hshape1 : (batchPhase cfg students1 mentors).mentors.map mentorShape =
      (mentors.filter (fun m => m.availability)).map mentorShape := by
    unfold batchPhase
    rw [processBatches_map_shape]
    exact resetAvailable_map_shape mentors
  have hmax1 : ∀ m ∈ (batchPhase cfg students1 mentors).mentors, cfg.batch_size ≤ m.max_students :=
    max_bound_of_map_shape_eq hshape1 hcapF
  have hid1 : ((batchPhase cfg students1 mentors).mentors.map
      (fun m => m.faculty_id)).Nodup := by
    rw [map_faculty_of_map_shape hshape1]
    exact ((List.filter_sublist _).map _).nodup hndF
  have hinv1 : CapInv cfg.batch_size (batchPhase cfg students1 mentors) :=
    CapInv_processBatches hwrap _ (initialState mentors) 1
      (completeChunks_length_le cfg.batch_size _ students1) (CapInv_initialState cfg.batch_size mentors)
  have hbound1 : ∀ (j : Nat) (m : Mentor),
      (batchPhase cfg students1 mentors).mentors[j]? = some m →
      m.assigned_students.length ≤ m.max_students := by
    intro j m hm
    exact le_trans (CapInv_mentors_bound hinv1 j m hm) (hmax1 m (List.getElem?_mem hm))
  have hbound1' : ∀ m ∈ (batchPhase cfg students1 mentors).mentors,
      m.assigned_students.length ≤ m.max_students := by
    intro m hm
    rcases List.getElem_of_mem hm with ⟨j, hj, he⟩
    exact hbound1 j m (by rw [List.getElem?_eq_getElem hj, he])
  obtain ⟨hcur1, hA1, hE1⟩ := hinv1
  unfold finalState
  by_cases hrem : 0 < students1.length % cfg.batch_size
  · rw [if_pos hrem]
    set st1 := batchPhase cfg students1 mentors with hst1
    set rem := students1.drop (students1.length / cfg.batch_size * cfg.batch_size)
      with hremdef
    have hremlen : rem.length < cfg.batch_size := by
      rw [hremdef, List.length_drop]
      have h1 := Nat.mod_lt students1.length hB
      have h2 := Nat.mod_add_div students1.length cfg.batch_size
      have h3 : students1.length / cfg.batch_size * cfg.batch_size =
          cfg.batch_size * (students1.length / cfg.batch_size) := Nat.mul_comm _ _
      rw [h3]
      omega
    by_cases hth : rem.length ≤ cfg.remainder_threshold
    · cases hlast : st1.assignments.getLast? with
      | none =>
        rw [handleRemainder_eq_unassigned_noLast hth hlast]
        exact hbound1'
      | some last =>
        cases hfind : st1.mentors.find? (fun m => m.faculty_id = last.mentor_id) with
        | none =>
          rw [handleRemainder_eq_unassigned_noFind hth hlast hfind]
          exact hbound1'
        | some mentor =>
          by_cases hg : mentor.max_students < last.student_roll_numbers.length +
              rem.length ∧ cfg.allow_mentor_overload = false
          · rw [handleRemainder_eq_unassigned_guard hth hlast hfind hg]
            exact hbound1'
          · rw [handleRemainder_eq_fold hth hlast hfind hg]
            have hfit : last.student_roll_numbers.length + rem.length ≤
                mentor.max_students := by
              rcases Nat.lt_or_ge mentor.max_students
                (last.student_roll_numbers.length + rem.length) with hl | hl
              · exact absurd ⟨hl, hover⟩ hg
              · exact hl
            obtain ⟨i, hi, hext⟩ := extendMentorAssigned_spec last.mentor_id
              (rem.map (fun s => s.roll_no)) st1.mentors mentor hfind
            rw [hext]
            have hne : st1.assignments ≠ [] := by
              intro hc
              rw [hc] at hlast
              exact Option.noConfusion hlast
            have hlastidx : st1.assignments[st1.assignments.length - 1]? = some last := by
              rw [← List.getLast?_eq_getElem?]
              exact hlast
            obtain ⟨-, m1, hm1, hfid1, heq1⟩ := hA1 _ _ hlastidx
            have hfid : mentor.faculty_id = last.mentor_id := by
              have := List.find?_some hfind
              simpa using this
            obtain ⟨hie, hme⟩ := index_inj_of_nodup_map hid1 hm1 hi
              (by rw [hfid1, hfid])
            subst hme
            intro m hm
            rcases List.getElem_of_mem hm with ⟨j, hj, he⟩
            have hjq : (st1.mentors.set i
                { m1 with
                  assigned_students := m1.assigned_students ++
                    rem.map (fun s => s.roll_no) })[j]? = some m := by
              rw [List.getElem?_eq_getElem hj, he]
            by_cases hji : i = j
            · subst hji
              rw [List.getElem?_set, if_pos rfl] at hjq
              have hilen : i < st1.mentors.length := by
                by_contra hc
                rw [List.getElem?_eq_none (Nat.not_lt.mp hc)] at hi
                exact Option.noConfusion hi
              rw [if_pos hilen] at hjq
              have := Option.some.inj hjq
              rw [← this]
              dsimp only
              rw [List.length_append, heq1, List.length_map]
              exact hfit
            · rw [List.getElem?_set, if_neg hji] at hjq
              exact hbound1 j m hjq
    · cases hcur : st1.mentors[st1.cursor]? with
      | none =>
        rw [handleRemainder_eq_unassigned_noMentor hth hcur]
        exact hbound1'
      | some mentor =>
        rw [handleRemainder_eq_newAssignment hth hcur]
        have hempty : mentor.assigned_students = [] := by
          apply hE1 st1.cursor mentor hcur
          omega
        intro m hm
        rcases List.getElem_of_mem hm with ⟨j, hj, he⟩
        have hjq : (st1.mentors.set st1.cursor
            { mentor with
              assigned_students := mentor.assigned_students ++
                rem.map (fun s => s.roll_no) })[j]? = some m := by
          rw [List.getElem?_eq_getElem hj, he]
        by_cases hji : st1.cursor = j
        · subst hji
          rw [List.getElem?_set, if_pos rfl] at hjq
          have hilen : st1.cursor < st1.mentors.length := by
            by_contra hc
            rw [List.getElem?_eq_none (Nat.not_lt.mp hc)] at hcur
            exact Option.noConfusion hcur
          rw [if_pos hilen] at hjq
          have := Option.some.inj hjq
          rw [← this]
          dsimp only
          rw [List.length_append, hempty, List.length_map]
          have hmmax : cfg.batch_size ≤ mentor.max_students := hmax1 mentor (List.getElem?_mem hcur)
          simp only [List.length_nil, Nat.zero_add]
          omega
        · rw [List.getElem?_set, if_neg hji] at hjq
          exact hbound1 j m hjq
  · rw [if_neg hrem]
    exact hbound1'

theorem firstCollision_eq_some_of_exists (existing : List Student) :
    ∀ ns : List Student, (∃ s ∈ ns, ∃ e ∈ existing, e.roll_no = s.roll_no) →
      ∃ r, firstCollision existing ns = some r ∧
        (∃ s ∈ ns, s.roll_no = r) ∧ ∃ e ∈ existing, e.roll_no = r := by
  intro ns
  induction ns with
  | nil => rintro ⟨s, hs, -⟩; simp at hs
  | cons s rest ih =>
    rintro ⟨t, ht, e, he, her⟩
    by_cases hc : existing.any (fun x => x.roll_no = s.roll_no)
    · refine ⟨s.roll_no, by simp [firstCollision, hc], ⟨s, by simp, rfl⟩, ?_⟩
      rcases List.any_eq_true.mp hc with ⟨e1, he1, heq⟩
      exact ⟨e1, he1, by simpa using heq⟩
    · have hts : t ∈ rest := by
        rcases List.mem_cons.mp ht with rfl | hmem
        · exact absurd (List.any_eq_true.mpr ⟨e, he, by simpa using her⟩) hc
        · exact hmem
      obtain ⟨r, hr, ⟨s1, hs1, hsr⟩, hex⟩ := ih ⟨t, hts, e, he, her⟩
      exact ⟨r, by simp [firstCollision, hc, hr], ⟨s1, List.mem_cons_of_mem _ hs1, hsr⟩, hex⟩

/-! ## Claim theorems -/

/-- C1: the remainder policy of `assign_students_to_mentors`.  (A) For n=64,
batch_size=30, threshold=12, three mentors of capacity 34 under the default
policy: two full batches of 30, the second assignment grows to 34 (rolls
31..64 folded in, its mentor's `assigned_students` and the remainder
students' `assigned_mentor_id` updated), and no third assignment.  (B) The
fold is all-or-nothing: when it would push the mentor past `max_students`
with overloading disallowed, the whole remainder is unassigned.  (C) With no
created assignment the whole remainder is unassigned.  (D) A remainder above
the threshold becomes its own assignment with `batch_number =
complete_batches+1` for the mentor at the cursor.  (E) With no mentor left at
the cursor, an above-threshold remainder is unassigned. -/
theorem remainder_policy_of_assign :
    (runShape (assign_students_to_mentors defaultConfig (demoStudents 64)
        [demoMentor "FAC1" 34, demoMentor "FAC2" 34, demoMentor "FAC3" 34]) =
      some (2, [("FAC1", 30, 1), ("FAC2", 34, 2)], []) ∧
      runSecondAssignment (assign_students_to_mentors defaultConfig (demoStudents 64)
        [demoMentor "FAC1" 34, demoMentor "FAC2" 34, demoMentor "FAC3" 34]) =
        some ((List.range 34).map (fun i => (i : Int) + 31), foldNote 34 4) ∧
      (runMentors (assign_students_to_mentors defaultConfig (demoStudents 64)
        [demoMentor "FAC1" 34, demoMentor "FAC2" 34, demoMentor "FAC3" 34])).map
          (fun l => l.map (fun m => (m.faculty_id, m.assigned_students.length))) =
        some [("FAC1", 30), ("FAC2", 34), ("FAC3", 0)] ∧
      (runStudents (assign_students_to_mentors defaultConfig (demoStudents 64)
        [demoMentor "FAC1" 34, demoMentor "FAC2" 34, demoMentor "FAC3" 34])).map
          (fun l => (l.filter (fun s => 30 < s.roll_no)).all
            (fun s => s.assigned_mentor_id == some "FAC2")) = some true) ∧
    runShape (assign_students_to_mentors cfgNoOverload (demoStudents 34)
        [demoMentor "FAC1" 30, demoMentor "FAC2" 30]) =
      some (1, [("FAC1", 30, 1)], [31, 32, 33, 34]) ∧
    runShape (assign_students_to_mentors defaultConfig (demoStudents 5)
        [demoMentor "FAC1" 30]) =
      some (0, [], [1, 2, 3, 4, 5]) ∧
    runShape (assign_students_to_mentors defaultConfig (demoStudents 73)
        [demoMentor "FAC1" 30, demoMentor "FAC2" 30, demoMentor "FAC3" 30]) =
      some (3, [("FAC1", 30, 1), ("FAC2", 30, 2), ("FAC3", 13, 3)], []) ∧
    runShape (assign_students_to_mentors cfgWrap (demoStudents 43)
        [demoMentor "FAC1" 50]) =
      some (1, [("FAC1", 30, 1)],
        [31, 32, 33, 34, 35, 36, 37, 38, 39, 40, 41, 42, 43]) := by
  refine ⟨⟨?_, ?_, ?_, ?_⟩, ?_, ?_, ?_, ?_⟩ <;> decide

/-- C2: every successful run of `assign_students_to_mentors` partitions the
input students: the sum of the assignment sizes plus the number of unassigned
students equals the number of input students, and each input student's roll
number occurs in exactly one place (some assignment's roll list or the
unassigned list).  This holds for every input on which the run succeeds, in
particular whenever at least `ceil(n/batch_size)` available mentors of
sufficient capacity are supplied and validation passes. -/
theorem assign_partitions_every_student (cfg : Config) (students : List Student)
    (mentors : List Mentor) (out : AssignmentSummary × List Student × List Mentor)
    (h : assign_students_to_mentors cfg students mentors = .ok out) :
    ((out.1.assignments.map (fun a => a.student_roll_numbers.length)).sum +
      out.1.unassigned_students.length = students.length) ∧
    ∀ s ∈ students,
      ((out.1.assignments.map (fun a => a.student_roll_numbers)).flatten ++
        out.1.unassigned_students).count s.roll_no = 1 := by
  obtain ⟨hv, ha, hout⟩ := assign_ok_elim h
  subst hout
  have hperm0 : (sortedStudents cfg students).Perm students := sortedStudents_perm cfg students
  have hfp := footprint_finalState cfg (sortedStudents cfg students) mentors ha
  have hcomb : ((runAssignment cfg (sortedStudents cfg students) mentors).1.assignments.map
      (fun a => a.student_roll_numbers)).flatten ++
      (runAssignment cfg (sortedStudents cfg students) mentors).1.unassigned_students =
      footprint (finalState cfg (sortedStudents cfg students) mentors) := rfl
  have hPerm : (((runAssignment cfg (sortedStudents cfg students) mentors).1.assignments.map
      (fun a => a.student_roll_numbers)).flatten ++
      (runAssignment cfg (sortedStudents cfg students) mentors).1.unassigned_students).Perm
      (rollsOf students) := by
    rw [hcomb]
    refine hfp.trans ?_
    unfold rollsOf
    exact hperm0.map (fun s => s.roll_no)
  constructor
  · have hlen := hPerm.length_eq
    rw [List.length_append, List.length_flatten, List.map_map] at hlen
    have hr : (rollsOf students).length = students.length := by
      unfold rollsOf
      rw [List.length_map]
    rw [hr] at hlen
    exact hlen
  · intro s hs
    have hnd : (rollsOf students).Nodup := (validation_nodups hv).1
    have hmem : s.roll_no ∈ rollsOf students := List.mem_map_of_mem _ hs
    rw [hPerm.count_eq s.roll_no]
    exact List.count_eq_one_of_mem hnd hmem

theorem assign_partitions_every_student_witness :
    (((runAssignment defaultConfig (sortedStudents defaultConfig (demoStudents 1))
        [demoMentor "FAC1" 30]).1.assignments.map
          (fun a => a.student_roll_numbers.length)).sum +
      (runAssignment defaultConfig (sortedStudents defaultConfig (demoStudents 1))
        [demoMentor "FAC1" 30]).1.unassigned_students.length = (demoStudents 1).length) ∧
    ∀ s ∈ demoStudents 1,
      (((runAssignment defaultConfig (sortedStudents defaultConfig (demoStudents 1))
          [demoMentor "FAC1" 30]).1.assignments.map
            (fun a => a.student_roll_numbers)).flatten ++
        (runAssignment defaultConfig (sortedStudents defaultConfig (demoStudents 1))
          [demoMentor "FAC1" 30]).1.unassigned_students).count s.roll_no = 1 :=
  assign_partitions_every_student defaultConfig (demoStudents 1) [demoMentor "FAC1" 30]
    _ (by decide)

/-- C3 counterexample: with overloading disabled, a successful run can still
leave a mentor over capacity.  Thirty students and two available mentors
(capacities 1 and 50) pass validation — total capacity 51 ≥ 30 and one batch
needs one mentor — yet the single batch of 30 goes to the capacity-1 mentor,
whose `assigned_students` ends with 30 > 1 entries.  The claimed invariant
`len(assigned_students) <= max_students` for every mentor is false. -/
theorem capacity_invariant_counterexample :
    runShape (assign_students_to_mentors cfgNoOverload (demoStudents 30)
        [demoMentor "FAC1" 1, demoMentor "FAC2" 50]) =
      some (1, [("FAC1", 30, 1)], []) ∧
    (runMentors (assign_students_to_mentors cfgNoOverload (demoStudents 30)
        [demoMentor "FAC1" 1, demoMentor "FAC2" 50])).map
      (fun l => decide (∃ m ∈ l, m.availability = true ∧
        m.max_students < m.assigned_students.length)) = some true := by
  refine ⟨?_, ?_⟩ <;> decide

/-- C3 amended: with `allow_mentor_overload` and `wrap_around_mentors` both
disabled, a positive batch size, and every available mentor's capacity at
least the batch size, every available mentor ends a successful run of
`assign_students_to_mentors` with `len(assigned_students) <= max_students`.
(Unavailable mentors keep whatever list they came in with; the batch phase
itself never checks per-mentor capacity, so the bound needs the
capacity-at-least-batch-size hypothesis.) -/
theorem capacity_invariant_amended (cfg : Config) (students : List Student)
    (mentors : List Mentor) (out : AssignmentSummary × List Student × List Mentor)
    (hwrap : cfg.wrap_around_mentors = false)
    (hover : cfg.allow_mentor_overload = false)
    (hB : 0 < cfg.batch_size)
    (hcap : ∀ m ∈ mentors, m.availability = true → cfg.batch_size ≤ m.max_students)
    (h : assign_students_to_mentors cfg students mentors = .ok out) :
    ∀ m ∈ out.2.2, m.availability = true →
      m.assigned_students.length ≤ m.max_students := by
  obtain ⟨hv, hafil, hout⟩ := assign_ok_elim h
  subst hout
  have hndF := (validation_nodups hv).2
  have hbound := @finalState_capacity_bound cfg (sortedStudents cfg students) mentors
    hwrap hover hB hndF hcap
  have halign := finalState_map_shape cfg (sortedStudents cfg students) mentors
  intro m hm hma
  rcases mergeMentors_mem_cases mentors _ halign m hm with hmem | ⟨-, hfalse⟩
  · exact hbound m hmem
  · rw [hma] at hfalse
    exact Bool.noConfusion hfalse

theorem capacity_invariant_amended_witness :
    (demoLoadedMentor 2).assigned_students.length ≤ (demoLoadedMentor 2).max_students :=
  capacity_invariant_amended tinyNoOverload (demoStudents 2) [demoMentor "FAC1" 2]
    (runAssignment tinyNoOverload (sortedStudents tinyNoOverload (demoStudents 2))
      [demoMentor "FAC1" 2])
    rfl rfl (by decide) (by decide) (by decide) (demoLoadedMentor 2)
    (by decide) (by decide)

/-- C4: when the students outnumber the available capacity and overloading is
allowed, `validate_assignment_feasibility` returns ok with the shortfall as a
warning in its issue list — but `validate_data_consistency` discards that ok
flag and counts the warning as a blocking issue, so
`assign_students_to_mentors` raises instead of proceeding (the claim's
"proceeds rather than raising" fails on the code).  With overloading
disallowed the same condition is a hard feasibility failure, as claimed. -/
theorem capacity_warning_blocks_assignment :
    validate_assignment_feasibility defaultConfig (demoStudents 2) [demoMentor "FAC1" 1] =
      (true, ["Some mentors will exceed normal capacity. Students: 2, Capacity: 1"]) ∧
    validate_data_consistency defaultConfig (demoStudents 2) [demoMentor "FAC1" 1] =
      (false, ["Some mentors will exceed normal capacity. Students: 2, Capacity: 1"]) ∧
    assign_students_to_mentors defaultConfig (demoStudents 2) [demoMentor "FAC1" 1] =
      .error "Data validation failed: Some mentors will exceed normal capacity. Students: 2, Capacity: 1" ∧
    validate_assignment_feasibility cfgNoOverload (demoStudents 2) [demoMentor "FAC1" 1] =
      (false, ["Not enough mentor capacity. Students: 2, Capacity: 1"]) ∧
    assign_students_to_mentors cfgNoOverload (demoStudents 2) [demoMentor "FAC1" 1] =
      .error "Data validation failed: Not enough mentor capacity. Students: 2, Capacity: 1" := by
  refine ⟨?_, ?_, ?_, ?_, ?_⟩ <;> decide

/-- C6: the overload branch of `add_new_students` does not succeed: once the
greedy pass has filled every capacity-bearing mentor, the "first available
mentor" is already full, so the `Mentor.assign_student` call inside the
overload branch raises `ValueError` instead of absorbing the remaining
students.  Here mentor FAC1 (capacity 1) takes the first of two new students
in the greedy pass and the overload branch then raises on the second. -/
theorem overload_branch_of_add_new_students_raises :
    add_new_students defaultConfig [] [demoStudent 1, demoStudent 2] [demoMentor "FAC1" 1] =
      .error ("Mentor FAC1 cannot accept more students", [],
        [{ demoStudent 1 with assigned_mentor_id := some "FAC1" },
          { demoStudent 2 with assigned_mentor_id := some "FAC1" }],
        [{ demoMentor "FAC1" 1 with assigned_students := [1] }]) := by
  decide

/-- C5: in the complete-batch loop with `wrap_around_mentors` disabled, once
the cursor has reached the end of the available-mentor list the skip branch
never advances it, so that batch and every subsequent batch land on the
unassigned list and no further `Assignment` is created. -/
theorem exhausted_cursor_skips_every_batch (cfg : Config) (st : BatchState) (bn : Nat)
    (batches : List (List Student)) (hwrap : cfg.wrap_around_mentors = false)
    (hex : st.mentors.length ≤ st.cursor) :
    processBatches cfg st bn batches =
      { st with unassigned := st.unassigned ++ batches.flatten,
                processed := st.processed ++ batches.flatten } := by
  induction batches generalizing st bn with
  | nil => simp [processBatches]
  | cons b rest ih =>
    have hstep : processOneBatch cfg st bn b =
        { st with unassigned := st.unassigned ++ b, processed := st.processed ++ b } := by
      unfold processOneBatch
      rw [if_pos hex, hwrap]
      simp
    rw [processBatches, hstep]
    rw [ih { st with unassigned := st.unassigned ++ b, processed := st.processed ++ b }
      (bn + 1) hex]
    simp

theorem exhausted_cursor_skips_every_batch_witness :
    processBatches defaultConfig exhaustedState 1 [[demoStudent 1], [demoStudent 2]] =
      { exhaustedState with
        unassigned := exhaustedState.unassigned ++ [[demoStudent 1], [demoStudent 2]].flatten,
        processed := exhaustedState.processed ++ [[demoStudent 1], [demoStudent 2]].flatten } :=
  exhausted_cursor_skips_every_batch defaultConfig exhaustedState 1
    [[demoStudent 1], [demoStudent 2]] rfl (by decide)

/-- C7: `add_new_students` raises, naming an offending roll number, whenever
a new student's roll number equals an existing student's; the error carries
the existing students, the new students and the mentors exactly as passed in
(the collision check precedes every mutation). -/
theorem add_new_students_rejects_collisions (cfg : Config)
    (existing new_students : List Student) (mentors : List Mentor)
    (h : ∃ s ∈ new_students, ∃ e ∈ existing, e.roll_no = s.roll_no) :
    ∃ r, add_new_students cfg existing new_students mentors =
        .error ("Student with roll number " ++ toString r ++ " already exists",
          existing, new_students, mentors) ∧
      (∃ s ∈ new_students, s.roll_no = r) ∧ ∃ e ∈ existing, e.roll_no = r := by
  obtain ⟨r, hfc, h1, h2⟩ := firstCollision_eq_some_of_exists existing new_students h
  exact ⟨r, by unfold add_new_students; rw [hfc], h1, h2⟩

theorem add_new_students_rejects_collisions_witness :
    ∃ r, add_new_students defaultConfig [demoStudent 5] [demoStudent 5]
        [demoMentor "FAC1" 30] =
        .error ("Student with roll number " ++ toString r ++ " already exists",
          [demoStudent 5], [demoStudent 5], [demoMentor "FAC1" 30]) ∧
      (∃ s ∈ [demoStudent 5], s.roll_no = r) ∧ ∃ e ∈ [demoStudent 5], e.roll_no = r :=
  add_new_students_rejects_collisions defaultConfig [demoStudent 5] [demoStudent 5]
    [demoMentor "FAC1" 30] ⟨demoStudent 5, by simp, demoStudent 5, by simp, rfl⟩

/-- C8 counterexample: a record that is both missing a required field
(branch) and has a malformed email gets only the missing-field error — the
email violation is not in the returned list, so `validate_student` does not
return the complete list of violations across both stages. -/
theorem validate_student_short_circuits_on_missing_field :
    validate_student missingBranchRecord = (false, ["Missing required field: branch"]) ∧
    "Invalid email format" ∉ (validate_student missingBranchRecord).2 := by
  refine ⟨?_, ?_⟩ <;> decide

/-- C8 amended: `validate_student` accumulates all violations within each
stage: if any required field is missing it returns exactly the missing-field
errors (short-circuiting the value checks); otherwise every value-level
violation present (roll range, year, blank name, email format, phone format)
appears in the returned list. -/
theorem validate_student_accumulates_within_stage (d : StudentData) :
    (requiredStudentErrors d ≠ [] → validate_student d = (false, requiredStudentErrors d)) ∧
    (requiredStudentErrors d = [] →
      (∀ v n, d.roll_no = some v → pyInt v = some n → validate_roll_number n = false →
        ("Roll number " ++ toString n ++ " is out of valid range") ∈ (validate_student d).2) ∧
      (∀ v y, d.year = some v → pyInt v = some y → validate_year y = false →
        ("Year " ++ toString y ++ " is not valid") ∈ (validate_student d).2) ∧
      (∀ s, d.name = some s → pyStrip s = "" →
        "Student name cannot be empty" ∈ (validate_student d).2) ∧
      (∀ e, d.email = some e → e ≠ "" → validate_email e = false →
        "Invalid email format" ∈ (validate_student d).2) ∧
      (∀ p, d.phone = some p → p ≠ "" → validate_phone p = false →
        "Invalid phone number format" ∈ (validate_student d).2)) := by
  constructor
  · intro hreq
    simp [validate_student, hreq]
  · intro hreq
    have h2 : (validate_student d).2 =
        rollNumberErrors d ++ yearErrors d ++ nameErrors d ++ emailErrors d ++ phoneErrors d := by
      simp [validate_student, hreq]
    refine ⟨?_, ?_, ?_, ?_, ?_⟩
    · intro v n hv hn hbad
      simp [h2, List.mem_append, rollNumberErrors, hv, hn, hbad]
    · intro v y hv hy hbad
      simp [h2, List.mem_append, yearErrors, hv, hy, hbad]
    · intro s hs hbad
      simp [h2, List.mem_append, nameErrors, hs, hbad]
    · intro e he hne hbad
      simp [h2, List.mem_append, emailErrors, he, hne, hbad]
    · intro p hp hnp hbad
      simp [h2, List.mem_append, phoneErrors, hp, hnp, hbad]

theorem validate_student_accumulates_within_stage_witness :
    ("Roll number 99999 is out of valid range") ∈ (validate_student allBadRecord).2 ∧
    ("Invalid email format") ∈ (validate_student allBadRecord).2 ∧
    ("Student name cannot be empty") ∈ (validate_student allBadRecord).2 ∧
    ("Invalid phone number format") ∈ (validate_student allBadRecord).2 :=
  ⟨((validate_student_accumulates_within_stage allBadRecord).2 (by decide)).1
      (.vstr "99999") 99999 rfl (by decide) (by decide),
    ((validate_student_accumulates_within_stage allBadRecord).2 (by decide)).2.2.2.1
      "nope" rfl (by decide) (by decide),
    ((validate_student_accumulates_within_stage allBadRecord).2 (by decide)).2.2.1
      " " rfl (by decide),
    ((validate_student_accumulates_within_stage allBadRecord).2 (by decide)).2.2.2.2
      "123" rfl (by decide) (by decide)⟩

/-- C9: cross-structure consistency after a successful run.  For every
`Assignment` of the returned summary there is exactly one available mentor in
the returned mentor list whose `faculty_id` equals the assignment's
`mentor_id`; that mentor's `assigned_students` contains every roll number of
the assignment; every returned student whose roll number appears in the
assignment has `assigned_mentor_id` equal to that `mentor_id`; and no
unassigned roll number appears in any assignment. -/
theorem assign_cross_structure_consistency (cfg : Config) (students : List Student)
    (mentors : List Mentor) (out : AssignmentSummary × List Student × List Mentor)
    (h : assign_students_to_mentors cfg students mentors = .ok out) :
    ∀ a ∈ out.1.assignments,
      (∃ m, (m ∈ out.2.2 ∧ m.availability = true ∧ m.faculty_id = a.mentor_id) ∧
        (∀ m' ∈ out.2.2, m'.availability = true → m'.faculty_id = a.mentor_id → m' = m) ∧
        ∀ r ∈ a.student_roll_numbers, r ∈ m.assigned_students) ∧
      (∀ s ∈ out.2.1, s.roll_no ∈ a.student_roll_numbers →
        s.assigned_mentor_id = some a.mentor_id) ∧
      (∀ r ∈ out.1.unassigned_students, r ∉ a.student_roll_numbers) := by
  obtain ⟨hv, hafil, hout⟩ := assign_ok_elim h
  subst hout
  obtain ⟨hndS0, hndF⟩ := validation_nodups hv
  have hperm0 := sortedStudents_perm cfg students
  have hndS : (rollsOf (sortedStudents cfg students)).Nodup := by
    unfold rollsOf
    unfold rollsOf at hndS0
    exact ((hperm0.map (fun s => s.roll_no)).symm).nodup hndS0
  obtain ⟨hid0, hav0, hnd, hP5, hP6, hP1, hP2, hP3⟩ :=
    @StateInv_finalState cfg (sortedStudents cfg students) mentors hafil hndS hndF
  have halign : (finalState cfg (sortedStudents cfg students) mentors).mentors.map
      mentorShape = (mentors.filter (fun m => m.availability)).map mentorShape :=
    finalState_map_shape cfg _ mentors
  have hmtsid : (mergeMentors mentors
      (finalState cfg (sortedStudents cfg students) mentors).mentors).map
        (fun m => m.faculty_id) = mentors.map (fun m => m.faculty_id) :=
    map_faculty_of_map_shape (mergeMentors_map_shape mentors _ halign)
  have hmtsnd : ((mergeMentors mentors
      (finalState cfg (sortedStudents cfg students) mentors).mentors).map
        (fun m => m.faculty_id)).Nodup := by
    rw [hmtsid]
    exact hndF
  intro a ha
  obtain ⟨i, m, hi, hmid, hsub⟩ := hP2 a ha
  have hmem_st2 : m ∈ (finalState cfg (sortedStudents cfg students) mentors).mentors :=
    List.getElem?_mem hi
  have hmmts : m ∈ mergeMentors mentors
      (finalState cfg (sortedStudents cfg students) mentors).mentors :=
    mergeMentors_mem_upd mentors _ halign m hmem_st2
  have hmav : m.availability = true := hav0 m hmem_st2
  refine ⟨⟨m, ⟨hmmts, hmav, hmid⟩, ?_, hsub⟩, ?_, ?_⟩
  · intro m' hm' _ hid'
    exact List.inj_on_of_nodup_map hmtsnd hm' hmmts (by rw [hid', hmid])
  · intro s hs hmem
    exact hP1 s hs a ha hmem
  · intro r hr hmem
    rcases List.mem_map.mp hr with ⟨s, hs, rfl⟩
    exact hP3 s hs a ha hmem

theorem assign_cross_structure_consistency_witness :
    (∃ m, (m ∈ (runAssignment smallBatchConfig
        (sortedStudents smallBatchConfig (demoStudents 2))
        [demoMentor "FAC1" 30]).2.2 ∧ m.availability = true ∧
        m.faculty_id = demoAssignment.mentor_id) ∧
      (∀ m' ∈ (runAssignment smallBatchConfig
          (sortedStudents smallBatchConfig (demoStudents 2))
          [demoMentor "FAC1" 30]).2.2, m'.availability = true →
          m'.faculty_id = demoAssignment.mentor_id → m' = m) ∧
      ∀ r ∈ demoAssignment.student_roll_numbers, r ∈ m.assigned_students) ∧
    (∀ s ∈ (runAssignment smallBatchConfig
        (sortedStudents smallBatchConfig (demoStudents 2))
        [demoMentor "FAC1" 30]).2.1, s.roll_no ∈ demoAssignment.student_roll_numbers →
        s.assigned_mentor_id = some demoAssignment.mentor_id) ∧
    (∀ r ∈ (runAssignment smallBatchConfig
        (sortedStudents smallBatchConfig (demoStudents 2))
        [demoMentor "FAC1" 30]).1.unassigned_students,
        r ∉ demoAssignment.student_roll_numbers) :=
  assign_cross_structure_consistency smallBatchConfig (demoStudents 2)
    [demoMentor "FAC1" 30]
    (runAssignment smallBatchConfig (sortedStudents smallBatchConfig (demoStudents 2))
      [demoMentor "FAC1" 30])
    (by decide) demoAssignment (by decide)

/-- C10: `assign_students_to_mentors` only mutates available mentors: every
mentor whose `availability` is false sits at the same position of the
returned mentor list with all of its fields, `assigned_students` included,
exactly as passed in. -/
theorem unavailable_mentors_untouched (cfg : Config) (students : List Student)
    (mentors : List Mentor) (out : AssignmentSummary × List Student × List Mentor)
    (h : assign_students_to_mentors cfg students mentors = .ok out)
    (i : Nat) (m0 : Mentor) (hm : mentors[i]? = some m0)
    (hav : m0.availability = false) : out.2.2[i]? = some m0 := by
  obtain ⟨-, -, hout⟩ := assign_ok_elim h
  subst hout
  exact mergeMentors_getElem?_unavailable mentors _ i m0 hm hav

theorem unavailable_mentors_untouched_witness :
    (runAssignment defaultConfig
      (sortedStudents defaultConfig (demoStudents 1))
      [unavailableMentor, demoMentor "FAC1" 30]).2.2[0]? = some unavailableMentor :=
  unavailable_mentors_untouched defaultConfig (demoStudents 1)
    [unavailableMentor, demoMentor "FAC1" 30] _ (by decide) 0 unavailableMentor rfl rfl

end Mentors
